import Mathlib

/-!
# async-profiler: argument parser, macOS sampling backend, Java entry points

A shallow embedding of `Arguments::parse` (src/arguments.cpp), of the
timer-driven `PerfEvents` backend (src/perfEvents_macos.cpp) and of the dump
entry points of src/javaApi.cpp, with the properties of the design document
that these pieces decide.

Conventions of the embedding:

* a C `char` is a `Char`, a C string is the `List Char` of the characters
  before its terminating NUL;
* `int` values are `Int`s kept inside the 32-bit range by the functions that
  produce them (`atoi`, `INT_MAX`);
* a `const char*` message result is an `Option String`, `none` being `NULL`;
* a pointer into the array `_buf` is the offset of the character it points to,
  and the string read through it is read from the array as it then is;
* member variables become fields of a state record, member functions become
  functions that take and return that record.
-/

namespace AsyncProfiler

/-! ## Enumerations declared in arguments.h -/

/-- Modelled from the spec: the enum `Action` is declared in arguments.h, which
is not among the sources. The four named enumerators are the ones that
arguments.cpp assigns; `other` stands for any further enumerator of the
declaration (an initial value that `parse` never assigns). -/
inductive Action where
  | ACTION_START
  | ACTION_STOP
  | ACTION_STATUS
  | ACTION_DUMP
  | other (code : Nat)
  deriving DecidableEq, Repr

/-- Modelled from the spec: the enum `Mode` is declared in arguments.h, which is
not among the sources; arguments.cpp and javaApi.cpp name `MODE_CPU` and
`MODE_HEAP`, `other` stands for any further enumerator. -/
inductive Mode where
  | MODE_CPU
  | MODE_HEAP
  | other (code : Nat)
  deriving DecidableEq, Repr

/-- Modelled from the spec: the enum `Counter` is declared in arguments.h, which
is not among the sources; the sources name `COUNTER_SAMPLES` and
`COUNTER_TOTAL`, `other` stands for any further enumerator. -/
inductive Counter where
  | COUNTER_SAMPLES
  | COUNTER_TOTAL
  | other (code : Nat)
  deriving DecidableEq, Repr

/-- Modelled from the spec: the enum `EventType` is declared in a header that is
not among the sources. The enumerators are the seven names used by
arguments.cpp and perfEvents_macos.cpp; `other` stands for any further
enumerator. -/
inductive EventType where
  | EVENT_TYPE_CPU_CLOCK
  | EVENT_TYPE_CYCLES
  | EVENT_TYPE_CTX_SWITCHES
  | EVENT_TYPE_BRANCH_MISSES
  | EVENT_TYPE_CACHE_MISSES
  | EVENT_TYPE_L1D_LOAD_MISSES
  | EVENT_TYPE_LLC_LOAD_MISSES
  | other (code : Nat)
  deriving DecidableEq, Repr

/-! ## C library functions used by the parser -/

/-- The terminating character of a C string. -/
def NUL : Char := Char.ofNat 0

/-- The value of `INT_MAX` from limits.h for a 32-bit `int`. -/
def INT_MAX : Int := 2147483647

/-- The value of `LONG_MAX` for a 64-bit `long`. -/
def LONG_MAX : Int := 9223372036854775807

/-- The value of `LONG_MIN` for a 64-bit `long`. -/
def LONG_MIN : Int := -9223372036854775808

/-- The characters of the C string stored at the start of a character
sequence: everything before the first NUL. -/
def cstr (s : List Char) : List Char :=
  s.takeWhile (fun c => c != NUL)

/-- C `strlen`: the number of characters before the terminating NUL. -/
def strlen (s : List Char) : Nat :=
  (cstr s).length

/-- C `isspace` in the "C" locale. -/
def isspace (c : Char) : Bool :=
  c == ' ' || (9 ≤ c.toNat && c.toNat ≤ 13)

/-- C `isdigit`. -/
def isdigit (c : Char) : Bool :=
  '0'.toNat ≤ c.toNat && c.toNat ≤ '9'.toNat

/-- The decimal value of the leading run of digits of `s`, continuing from the
value `acc` read so far. -/
def digitsValue : List Char → Nat → Nat
  | [], acc => acc
  | c :: cs, acc =>
    if isdigit c then digitsValue cs (10 * acc + (c.toNat - '0'.toNat)) else acc

/-- C `strtol(s, NULL, 10)`: leading white space is skipped, an optional sign
is read, then the longest run of decimal digits; a value outside the range of
`long` is replaced by `LONG_MIN` or `LONG_MAX`. Without digits the result is 0. -/
def strtol (s : List Char) : Int :=
  match s.dropWhile isspace with
  | '-' :: r => max (-(digitsValue r 0 : Int)) LONG_MIN
  | '+' :: r => min (digitsValue r 0 : Int) LONG_MAX
  | r => min (digitsValue r 0 : Int) LONG_MAX

/-- Conversion of a `long` to a 32-bit `int`: the low 32 bits, read as a
two's-complement number. -/
def toInt32 (x : Int) : Int :=
  (x + 2147483648) % 4294967296 - 2147483648

/-- C `atoi`, which the C standard defines as `(int)strtol(s, NULL, 10)`. For a
numeral outside the range of `int` the standard leaves the result open; the
model follows the LP64 C libraries (glibc, macOS libc), where `strtol` saturates
and the conversion keeps the low 32 bits. -/
def atoi (s : List Char) : Int :=
  toInt32 (strtol s)

/-- The outcome of one `strtok` call on the rest of the buffer. -/
structure StrtokResult where
  /-- The delimiters passed over before the token starts. -/
  skipped : List Char
  /-- The token: a maximal non-empty run of non-delimiter characters. -/
  token : List Char
  /-- Whether the token was ended by a delimiter (which `strtok` overwrites
  with NUL) rather than by the end of the string. -/
  delimited : Bool
  /-- The part of the string after the overwritten delimiter, where the next
  call resumes. -/
  rest : List Char
  deriving DecidableEq, Repr

/-- C `strtok` with the delimiter set `","`, as a function of the part of the
string not yet scanned (the saved pointer of the C function): leading
delimiters are passed over, the token runs up to the next delimiter or the end
of the string, and the scan resumes after that delimiter. `none` is the `NULL`
result returned when only delimiters are left. -/
def strtok (s : List Char) : Option StrtokResult :=
  let start := s.dropWhile (fun c => c == ',')
  if start = [] then none
  else
    some
      { skipped := s.takeWhile (fun c => c == ',')
        token := start.takeWhile (fun c => c != ',')
        delimited := !(start.dropWhile (fun c => c != ',')).isEmpty
        rest := (start.dropWhile (fun c => c != ',')).drop 1 }

/-- The effect of `char* value = strchr(arg, '='); if (value != NULL) *value++ = 0;`
on the string read through `arg`: what is left of the first `=`. -/
def argName (arg : List Char) : List Char :=
  arg.takeWhile (fun c => c != '=')

/-- The string `value` points to after
`char* value = strchr(arg, '='); if (value != NULL) *value++ = 0;`:
`none` when the argument has no `=`, otherwise what follows the first `=`. -/
def argValue (arg : List Char) : Option (List Char) :=
  match arg.dropWhile (fun c => c != '=') with
  | [] => none
  | _ :: v => some v

/-- The characters stored in the buffer for a token after the `=` that ends
its name has been overwritten with NUL. -/
def argStored (arg : List Char) : List Char :=
  match arg.dropWhile (fun c => c != '=') with
  | [] => arg
  | _ :: v => argName arg ++ NUL :: v

/-- The result of `strchr(arg, ':')` followed by `event + 1`: `none` when the
name has no colon, otherwise what follows the first colon. -/
def eventPart (arg : List Char) : Option (List Char) :=
  match arg.dropWhile (fun c => c != ':') with
  | [] => none
  | _ :: e => some e

/-! ## The configuration object -/

/-- The data members of class `Arguments`. `_buf` holds the characters of the
character array, NULs included. `_file` is `NULL` (`none`) or a pointer into
`_buf`, given by the offset of the character it points to: `parse` is the only
place that assigns it, and it assigns the pointer `value`. -/
structure Arguments where
  _buf : List Char
  _action : Action
  _mode : Mode
  _event_type : EventType
  _counter : Counter
  _dump_collapsed : Bool
  _dump_summary : Bool
  _dump_traces : Int
  _dump_flat : Int
  _interval : Int
  _framebuf : Int
  _file : Option Nat
  deriving DecidableEq, Repr

/-- The file name an object holds: the C string read through `_file` in the
object's own `_buf`, `none` when `_file` is `NULL`. -/
def Arguments.fileName (a : Arguments) : Option (List Char) :=
  a._file.map (fun p => cstr (a._buf.drop p))

/-- The constant an event name selects in the `strcmp` chain of `parse`;
`none` is the final `else` branch. -/
def eventOfName (event : List Char) : Option EventType :=
  if event = "cycles".toList then some .EVENT_TYPE_CYCLES
  else if event = "context-switches".toList then some .EVENT_TYPE_CTX_SWITCHES
  else if event = "branch-misses".toList then some .EVENT_TYPE_BRANCH_MISSES
  else if event = "cache-misses".toList then some .EVENT_TYPE_CACHE_MISSES
  else if event = "L1-dcache-load-misses".toList then some .EVENT_TYPE_L1D_LOAD_MISSES
  else if event = "LLC-load-misses".toList then some .EVENT_TYPE_LLC_LOAD_MISSES
  else none

/-- The event names that the grammar `cpu:event` lists, each with its
constant. -/
def eventNames : List (List Char × EventType) :=
  [("cycles".toList, .EVENT_TYPE_CYCLES),
   ("context-switches".toList, .EVENT_TYPE_CTX_SWITCHES),
   ("branch-misses".toList, .EVENT_TYPE_BRANCH_MISSES),
   ("cache-misses".toList, .EVENT_TYPE_CACHE_MISSES),
   ("L1-dcache-load-misses".toList, .EVENT_TYPE_L1D_LOAD_MISSES),
   ("LLC-load-misses".toList, .EVENT_TYPE_LLC_LOAD_MISSES)]

/-- The expression `value == NULL ? INT_MAX : atoi(value)` of the `traces` and
`flat` branches. -/
def dumpLimit (value : Option (List Char)) : Int :=
  match value with
  | none => INT_MAX
  | some v => atoi v

/-- The body of the `for` loop of `Arguments::parse` for one token, after the
token has been cut at its first `=` into `arg` and `value`. The pointer `value`
is given by the string read through it (`none` for `NULL`) and by its address
`valueAt`, an offset into `_buf`. The first component of the result is the
message of a `return` inside the body, `none` when the body falls through to
the next iteration; the second is the object as the body leaves it. -/
def processArg (arg : List Char) (value : Option (List Char)) (valueAt : Nat)
    (a : Arguments) : Option String × Arguments :=
  if arg = "start".toList then
    (none, { a with _action := .ACTION_START })
  else if arg = "stop".toList then
    (none, { a with _action := .ACTION_STOP })
  else if arg = "status".toList then
    (none, { a with _action := .ACTION_STATUS })
  else if arg.take 3 = "cpu".toList then
    match eventPart arg with
    | none => (none, { a with _mode := .MODE_CPU })
    | some event =>
      match eventOfName event with
      | some t => (none, { a with _mode := .MODE_CPU, _event_type := t })
      | none => (some "unknown event type", { a with _mode := .MODE_CPU })
  else if arg = "heap".toList then
    (none, { a with _mode := .MODE_HEAP })
  else if arg = "collapsed".toList ∨ arg = "folded".toList then
    (none, { a with
      _action := .ACTION_DUMP
      _dump_collapsed := true
      _counter :=
        if value = none ∨ value = some "samples".toList then .COUNTER_SAMPLES
        else .COUNTER_TOTAL })
  else if arg = "summary".toList then
    (none, { a with _action := .ACTION_DUMP, _dump_summary := true })
  else if arg = "traces".toList then
    (none, { a with
      _action := .ACTION_DUMP
      _dump_traces := dumpLimit value })
  else if arg = "flat".toList then
    (none, { a with
      _action := .ACTION_DUMP
      _dump_flat := dumpLimit value })
  else if arg = "interval".toList then
    match value with
    | none => (some "interval must be > 0", a)
    | some v =>
      if atoi v ≤ 0 then (some "interval must be > 0", { a with _interval := atoi v })
      else (none, { a with _interval := atoi v })
  else if arg = "framebuf".toList then
    match value with
    | none => (some "framebuf must be > 0", a)
    | some v =>
      if atoi v ≤ 0 then (some "framebuf must be > 0", { a with _framebuf := atoi v })
      else (none, { a with _framebuf := atoi v })
  else if arg = "file".toList then
    match value with
    | none => (some "file must not be empty", a)
    | some v =>
      if v = [] then (some "file must not be empty", a)
      else (none, { a with _file := some valueAt })
  else
    (none, a)

/-- A token as the loop of `parse` holds it in `arg`: a pointer into `_buf`,
given by its offset, and the string read through it. -/
structure Token where
  offset : Nat
  text : List Char
  deriving DecidableEq, Repr

/-- The address that `value` has for a token with a `=`: the offset in `_buf`
of the character after the first `=` of the token. -/
def Token.valueAt (t : Token) : Nat :=
  t.offset + (argName t.text).length + 1

/-- The number of characters one `strtok` call passes: the delimiters before
the token, the token, and the delimiter that ends it, if there is one. -/
def StrtokResult.consumed (t : StrtokResult) : Nat :=
  t.skipped.length + t.token.length + (if t.delimited then 1 else 0)

/-- What the `for` loop of `Arguments::parse` leaves behind. -/
structure LoopResult where
  /-- The returned message, `none` for `NULL`. -/
  msg : Option String
  /-- The object with its data members other than `_buf`. -/
  args : Arguments
  /-- The characters now stored in the part of `_buf` the loop was started on. -/
  stored : List Char
  deriving DecidableEq, Repr

/-- The `for` loop of `Arguments::parse`, started with `strtok` about to scan
`rest`, which begins at the offset `pos` of `_buf`. Each iteration consumes at
least one character of `rest`, so a fuel of `rest.length + 1` is never used
up. -/
def parseLoop : Nat → Nat → List Char → Arguments → LoopResult
  | 0, _, rest, a => ⟨none, a, rest⟩
  | fuel + 1, pos, rest, a =>
    match strtok rest with
    | none => ⟨none, a, rest⟩
    | some t =>
      let arg : Token := ⟨pos + t.skipped.length, t.token⟩
      let written :=
        t.skipped ++ argStored t.token ++ (if t.delimited then [NUL] else [])
      match processArg (argName arg.text) (argValue arg.text) arg.valueAt a with
      | (some msg, a') => ⟨some msg, a', written ++ t.rest⟩
      | (none, a') =>
        let r := parseLoop fuel (pos + t.consumed) t.rest a'
        ⟨r.msg, r.args, written ++ r.stored⟩

/-- The member function `Arguments::parse(args)` for an object whose `_buf`
array has `bufSize` characters (`sizeof(_buf)`; the declaration is in
arguments.h). The result is the returned message (`none` for `NULL`) and the
object after the call: `strcpy` has put the string and its NUL at the start of
`_buf`, and the loop has cut the copy into tokens. -/
def parse (bufSize : Nat) (args : List Char) (a : Arguments) : Option String × Arguments :=
  if strlen args ≥ bufSize then
    (some "Argument list too long", a)
  else
    let r := parseLoop (strlen args + 1) 0 (cstr args) a
    (r.msg, { r.args with _buf := r.stored ++ NUL :: a._buf.drop (strlen args + 1) })

/-- An object with a 64-character buffer, used to run `parse` on concrete
strings: buffer of NULs, no action chosen, CPU mode, no dump requested, no
file, interval and frame buffer of one million. -/
def sampleArguments : Arguments :=
  { _buf := List.replicate 64 NUL
    _action := .other 0
    _mode := .MODE_CPU
    _event_type := .EVENT_TYPE_CPU_CLOCK
    _counter := .COUNTER_SAMPLES
    _dump_collapsed := false
    _dump_summary := false
    _dump_traces := 0
    _dump_flat := 0
    _interval := 1000000
    _framebuf := 1000000
    _file := none }

/-- The tokens that successive `strtok` calls return on `s`, at most `fuel` of
them. -/
def tokens : Nat → List Char → List (List Char)
  | 0, _ => []
  | fuel + 1, s =>
    match strtok s with
    | none => []
    | some t => t.token :: tokens fuel t.rest

/-- The arguments of an argument string: the tokens the loop of `parse` visits
when no iteration returns early. -/
def argList (args : List Char) : List (List Char) :=
  tokens (strlen args + 1) (cstr args)

/-- The non-empty pieces into which the commas cut a string. -/
def commaPieces (s : List Char) : List (List Char) :=
  (s.splitOn ',').filter (fun t => !t.isEmpty)

/-- The tokens that successive `strtok` calls return on `s`, which begins at
the offset `pos` of `_buf`, each with its own offset; at most `fuel` of them. -/
def tokensAt : Nat → Nat → List Char → List Token
  | 0, _, _ => []
  | fuel + 1, pos, s =>
    match strtok s with
    | none => []
    | some t => ⟨pos + t.skipped.length, t.token⟩ :: tokensAt fuel (pos + t.consumed) t.rest

/-- The arguments of an argument string with their places in `_buf`. -/
def argTokens (args : List Char) : List Token :=
  tokensAt (strlen args + 1) 0 (cstr args)

/-- The loop body applied to one token. -/
def processToken (t : Token) (a : Arguments) : Option String × Arguments :=
  processArg (argName t.text) (argValue t.text) t.valueAt a

/-- The loop body applied to a list of tokens in order, stopping at the first
token whose body returns a message. -/
def applyArgs : List Token → Arguments → Option String × Arguments
  | [], a => (none, a)
  | t :: ts, a =>
    match processToken t a with
    | (some msg, a') => (some msg, a')
    | (none, a') => applyArgs ts a'

/-- The message with which the loop body returns on a token, `none` when the
body falls through. It depends on the text of the token alone. -/
def argError (t : List Char) : Option String :=
  (processArg (argName t) (argValue t) 0 sampleArguments).1

/-- The value of the last `file` argument that the loop accepts before it
returns, `none` when it accepts none: the text that `_file` is pointed to. -/
def acceptedFile : List (List Char) → Option (List Char)
  | [] => none
  | t :: ts =>
    if argError t ≠ none then none
    else
      match acceptedFile ts with
      | some v => some v
      | none => if argName t = "file".toList then argValue t else none

/-! ## The macOS sampling backend (perfEvents_macos.cpp) -/

/-- A `struct timeval`. -/
structure Timeval where
  tv_sec : Int
  tv_usec : Int
  deriving DecidableEq, Repr

/-- A `struct itimerval`: the repeat period, then the time to the next expiry. -/
structure Itimerval where
  it_interval : Timeval
  it_value : Timeval
  deriving DecidableEq, Repr

/-- The function a signal disposition refers to: the default action, the
`PerfEvents::signalHandler` of this backend, or some other function. -/
inductive Handler where
  | SIG_DFL
  | signalHandler
  | other (address : Nat)
  deriving DecidableEq, Repr

/-- The value of `SA_RESTART` in the macOS signal.h. -/
def SA_RESTART : Nat := 2

/-- The value of `SA_SIGINFO` in the macOS signal.h. -/
def SA_SIGINFO : Nat := 64

/-- A `struct sigaction`: the blocked-signal set as the list of its members,
the handler, the flags. -/
structure Sigaction where
  sa_mask : List Nat
  sa_sigaction : Handler
  sa_flags : Nat
  deriving DecidableEq, Repr

/-- The state the backend acts on: the static members of `PerfEvents`
(`_max_events` and `_events`, the latter as an address, are never written by
the macOS backend) and the two process-wide settings it programs, the
disposition of `SIGPROF` and the `ITIMER_PROF` interval timer. -/
structure PerfEvents where
  _max_events : Int
  _events : Nat
  _interval : Int
  sigprof : Sigaction
  itimer_prof : Itimerval
  deriving DecidableEq, Repr

/-- The backend at process start: zero-initialised statics, default
disposition for `SIGPROF`, interval timer not running. -/
def PerfEvents.initial : PerfEvents :=
  { _max_events := 0
    _events := 0
    _interval := 0
    sigprof := ⟨[], .SIG_DFL, 0⟩
    itimer_prof := ⟨⟨0, 0⟩, ⟨0, 0⟩⟩ }

/-- The call `setitimer(ITIMER_PROF, &tv, NULL)`: the timer takes the given
setting. -/
def setitimer (tv : Itimerval) (s : PerfEvents) : PerfEvents :=
  { s with itimer_prof := tv }

/-- An interval timer runs exactly when its time to the next expiry is
non-zero; `setitimer` with a zero `it_value` stops the timer. -/
def Itimerval.armed (tv : Itimerval) : Bool :=
  tv.it_value.tv_sec != 0 || tv.it_value.tv_usec != 0

/-- The function `PerfEvents::installSignalHandler`: `SIGPROF` gets the
handler `signalHandler`, an empty mask and the flags `SA_RESTART | SA_SIGINFO`. -/
def PerfEvents.installSignalHandler (s : PerfEvents) : PerfEvents :=
  { s with sigprof := ⟨[], .signalHandler, SA_RESTART ||| SA_SIGINFO⟩ }

/-- The function `PerfEvents::start`: the returned flag and the state after the
call. The divisions are those of C `int`s, truncating toward zero. -/
def PerfEvents.start (interval : Int) (type : EventType) (s : PerfEvents) :
    Bool × PerfEvents :=
  if interval ≤ 0 ∨ type ≠ .EVENT_TYPE_CPU_CLOCK then (false, s)
  else
    let s1 := { s with _interval := interval }
    let s2 := s1.installSignalHandler
    let sec := Int.tdiv interval 1000000000
    let usec := Int.tdiv (Int.tmod interval 1000000000) 1000
    let tv : Itimerval := ⟨⟨sec, usec⟩, ⟨sec, usec⟩⟩
    (true, setitimer tv s2)

/-- The function `PerfEvents::stop`: the timer is programmed with the all-zero
value. -/
def PerfEvents.stop (s : PerfEvents) : PerfEvents :=
  setitimer ⟨⟨0, 0⟩, ⟨0, 0⟩⟩ s

/-- One call of `Profiler::recordSample` with its four arguments, in the
order of the call: the execution context, the weight, the secondary counter id
and the pre-resolved call chain (`none` for `NULL`). -/
structure RecordSample where
  ucontext : Nat
  weight : Int
  counterId : Int
  callChain : Option (List Nat)
  deriving DecidableEq, Repr

/-- The function `PerfEvents::signalHandler`: the calls into the coordinator it
makes. -/
def PerfEvents.signalHandler (s : PerfEvents) (_signo _siginfo ucontext : Nat) :
    List RecordSample :=
  [⟨ucontext, s._interval, 0, none⟩]

/-- The number of `SIGPROF`. -/
def SIGPROF : Nat := 27

/-- One delivery of `SIGPROF` with the given execution context: the installed
handler runs; under another disposition no code of the backend runs. -/
def PerfEvents.deliver (s : PerfEvents) (siginfo ucontext : Nat) : List RecordSample :=
  match s.sigprof.sa_sigaction with
  | .signalHandler => s.signalHandler SIGPROF siginfo ucontext
  | _ => []

/-- A call of the backend's control interface. -/
inductive Call where
  | start (interval : Int) (type : EventType)
  | stop
  deriving DecidableEq, Repr

/-- The state after one call. -/
def PerfEvents.call (s : PerfEvents) : Call → PerfEvents
  | .start interval type => (s.start interval type).2
  | .stop => s.stop

/-- The state after a sequence of calls, first call first. -/
def PerfEvents.run (s : PerfEvents) (calls : List Call) : PerfEvents :=
  calls.foldl PerfEvents.call s

/-- The interval passed to the most recent `start` call of a call sequence
that returned true, `last` when the sequence has none; the calls are made, in
order, on the state `s`. -/
def PerfEvents.lastStarted (s : PerfEvents) : List Call → Option Int → Option Int
  | [], last => last
  | .start interval type :: cs, last =>
    if (s.start interval type).1 then
      PerfEvents.lastStarted (s.start interval type).2 cs (some interval)
    else
      PerfEvents.lastStarted (s.start interval type).2 cs last
  | .stop :: cs, last => PerfEvents.lastStarted s.stop cs last

/-- The number of running triggers a backend state holds. -/
def PerfEvents.activeTriggers (s : PerfEvents) : Nat :=
  if s.itimer_prof.armed then 1 else 0


/-- The settings an object holds: its data members other than the scratch
buffer `_buf` and the pointer `_file` into it, which are blanked here. -/
def Arguments.settings (a : Arguments) : Arguments :=
  { a with _buf := [], _file := none }

/-- The action that an argument of the given name selects, as the argument
grammar describes it: `start`, `stop` and `status` their own action, each of
the dump options the dump action; `none` for a name that selects no action. -/
def actionOfName (name : List Char) : Option Action :=
  if name = "start".toList then some .ACTION_START
  else if name = "stop".toList then some .ACTION_STOP
  else if name = "status".toList then some .ACTION_STATUS
  else if name = "collapsed".toList ∨ name = "folded".toList ∨ name = "summary".toList ∨
      name = "traces".toList ∨ name = "flat".toList then some .ACTION_DUMP
  else none

/-- The twelve argument names that the loop body compares with `strcmp`. -/
def knownNames : List (List Char) :=
  ["start".toList, "stop".toList, "status".toList, "heap".toList, "collapsed".toList,
   "folded".toList, "summary".toList, "traces".toList, "flat".toList, "interval".toList,
   "framebuf".toList, "file".toList]

/-- An argument name that no branch of the loop body takes: none of the twelve
names and not beginning with `cpu`. -/
def unrecognised (name : List Char) : Prop :=
  name ∉ knownNames ∧ name.take 3 ≠ "cpu".toList

/-- The relation between a token `t` and the token `t'` that stands for it after
`folded` arguments have been rewritten to `collapsed`: `t'` is `t` itself, or
`t` has the name `folded` and `t'` is `t` with `collapsed` in the place of its
first six characters. -/
def FoldedRenamed (t t' : List Char) : Prop :=
  t' = t ∨ (argName t = "folded".toList ∧ t' = "collapsed".toList ++ t.drop 6)

/-- Two argument strings give the same settings on an object: `parse` returns
the same message and leaves the same value in every data member other than
`_buf` and `_file`. -/
def SameSettings (bufSize : Nat) (args args' : List Char) (a : Arguments) : Prop :=
  (parse bufSize args a).1 = (parse bufSize args' a).1 ∧
    (parse bufSize args a).2.settings = (parse bufSize args' a).2.settings

/-- Two argument strings have the same outcome on an object: the same message,
the same settings and the same file name. -/
def SameOutcome (bufSize : Nat) (args args' : List Char) (a : Arguments) : Prop :=
  SameSettings bufSize args args' a ∧
    (parse bufSize args a).2.fileName = (parse bufSize args' a).2.fileName

/-- The call decides the file name: the object had no file before (`_file` was
`NULL`), or the loop accepts a `file` argument of the string before it returns.
Otherwise `_file` keeps the pointer it had, into a buffer whose text the call
replaces. -/
def FileDecided (args : List Char) (a : Arguments) : Prop :=
  a._file = none ∨ acceptedFile (argList args) ≠ none

/-- Two argument strings have the same result on an object: the same message
and the same settings, and the same file name as well when the call on the
first string decides the file name. -/
def SameResult (bufSize : Nat) (args args' : List Char) (a : Arguments) : Prop :=
  SameSettings bufSize args args' a ∧
    (FileDecided args a → SameOutcome bufSize args args' a)

/-- An object on which an earlier call has accepted `file=abc`: `_file` points
to the sixth character of `_buf`. -/
def parsedBefore : Arguments :=
  (parse 64 "file=abc".toList sampleArguments).2

/-! ## The embedding interface (javaApi.cpp) -/

/-- Modelled from the spec: the dump operations of class `Profiler` and the
constant `MAX_CALLTRACES` are declared in profiler.h, which is not among the
sources. The design document has the dump operations as read-only functions of
the call-trace table that render text; each is represented by the text it
writes to the output stream it is given, as a function of the table. -/
structure Profiler (Table : Type) where
  MAX_CALLTRACES : Int
  dumpSummary : Table → List Char
  dumpTraces : Table → Int → List Char
  dumpFlat : Table → Int → List Char

/-- The Java string that `env->NewStringUTF(out.str().c_str())` makes of the
text written to the stream `out`: `c_str()` hands over a C string, which ends
at the first NUL of the text. -/
def NewStringUTF (text : List Char) : List Char :=
  cstr text

/-- The entry point `Java_one_profiler_AsyncProfiler_dumpTraces0`: a fresh
stream receives the summary, then the traces, and its text is returned. -/
def dumpTraces0 {Table : Type} (profiler : Profiler Table) (table : Table)
    (max_traces : Int) : List Char :=
  let out : List Char := []
  let out := out ++ profiler.dumpSummary table
  let out := out ++
    profiler.dumpTraces table (if max_traces ≠ 0 then max_traces else profiler.MAX_CALLTRACES)
  NewStringUTF out

/-- The entry point `Java_one_profiler_AsyncProfiler_dumpFlat0`: a fresh stream
receives the summary, then the flat profile, and its text is returned. -/
def dumpFlat0 {Table : Type} (profiler : Profiler Table) (table : Table)
    (max_methods : Int) : List Char :=
  let out : List Char := []
  let out := out ++ profiler.dumpSummary table
  let out := out ++
    profiler.dumpFlat table (if max_methods ≠ 0 then max_methods else profiler.MAX_CALLTRACES)
  NewStringUTF out

/-- A profiler over tables that are lists of sample counts, used to run the
entry points on concrete input: the summary has a mark per trace, the trace
dump and the flat dump a mark per listed entry, up to the given limit. -/
def sampleProfiler : Profiler (List Nat) :=
  { MAX_CALLTRACES := 32768
    dumpSummary := fun table => "traces ".toList ++ List.replicate table.length '#' ++ ['\n']
    dumpTraces := fun table n => List.replicate (min table.length n.toNat) '*' ++ ['\n']
    dumpFlat := fun table n => List.replicate (min table.length n.toNat) '+' ++ ['\n'] }

/-! ## Properties of the argument parser -/

section ParseLemmas

/-- Case analysis on the `if`/`else if` chain of the loop body, which is
decided by the token alone: a property of the body, as a function of the
address of the value and of the object it works on, holds as soon as it holds
on every branch. -/
theorem processArg_cases (n : List Char) (v : Option (List Char))
    (Q : (Nat → Arguments → Option String × Arguments) → Prop)
    (hstart : n = "start".toList → Q (fun _ a => (none, { a with _action := .ACTION_START })))
    (hstop : n = "stop".toList → Q (fun _ a => (none, { a with _action := .ACTION_STOP })))
    (hstatus : n = "status".toList →
      Q (fun _ a => (none, { a with _action := .ACTION_STATUS })))
    (hcpu : n.take 3 = "cpu".toList → eventPart n = none →
      Q (fun _ a => (none, { a with _mode := .MODE_CPU })))
    (hevent : ∀ e t, n.take 3 = "cpu".toList → eventPart n = some e →
      eventOfName e = some t →
      Q (fun _ a => (none, { a with _mode := .MODE_CPU, _event_type := t })))
    (hunknown : ∀ e, n.take 3 = "cpu".toList → eventPart n = some e →
      eventOfName e = none →
      Q (fun _ a => (some "unknown event type", { a with _mode := .MODE_CPU })))
    (hheap : n = "heap".toList → Q (fun _ a => (none, { a with _mode := .MODE_HEAP })))
    (hcollapsed : n = "collapsed".toList ∨ n = "folded".toList →
      Q (fun _ a => (none, { a with
        _action := .ACTION_DUMP
        _dump_collapsed := true
        _counter :=
          if v = none ∨ v = some "samples".toList then .COUNTER_SAMPLES
          else .COUNTER_TOTAL })))
    (hsummary : n = "summary".toList →
      Q (fun _ a => (none, { a with _action := .ACTION_DUMP, _dump_summary := true })))
    (htraces : n = "traces".toList →
      Q (fun _ a => (none, { a with _action := .ACTION_DUMP, _dump_traces := dumpLimit v })))
    (hflat : n = "flat".toList →
      Q (fun _ a => (none, { a with _action := .ACTION_DUMP, _dump_flat := dumpLimit v })))
    (hinterval0 : n = "interval".toList → v = none →
      Q (fun _ a => (some "interval must be > 0", a)))
    (hinterval1 : ∀ w, n = "interval".toList → v = some w → atoi w ≤ 0 →
      Q (fun _ a => (some "interval must be > 0", { a with _interval := atoi w })))
    (hinterval2 : ∀ w, n = "interval".toList → v = some w → 0 < atoi w →
      Q (fun _ a => (none, { a with _interval := atoi w })))
    (hframebuf0 : n = "framebuf".toList → v = none →
      Q (fun _ a => (some "framebuf must be > 0", a)))
    (hframebuf1 : ∀ w, n = "framebuf".toList → v = some w → atoi w ≤ 0 →
      Q (fun _ a => (some "framebuf must be > 0", { a with _framebuf := atoi w })))
    (hframebuf2 : ∀ w, n = "framebuf".toList → v = some w → 0 < atoi w →
      Q (fun _ a => (none, { a with _framebuf := atoi w })))
    (hfile0 : n = "file".toList → v = none →
      Q (fun _ a => (some "file must not be empty", a)))
    (hfile1 : n = "file".toList → v = some [] →
      Q (fun _ a => (some "file must not be empty", a)))
    (hfile2 : ∀ w, n = "file".toList → v = some w → w ≠ [] →
      Q (fun p a => (none, { a with _file := some p })))
    (hother : n ≠ "start".toList → n ≠ "stop".toList → n ≠ "status".toList →
      n.take 3 ≠ "cpu".toList → n ≠ "heap".toList → n ≠ "collapsed".toList →
      n ≠ "folded".toList → n ≠ "summary".toList → n ≠ "traces".toList →
      n ≠ "flat".toList → n ≠ "interval".toList → n ≠ "framebuf".toList →
      n ≠ "file".toList → Q (fun _ a => (none, a))) :
    Q (processArg n v) := by
  by_cases h1 : n = "start".toList
  · have e : processArg n v = fun _ a => (none, { a with _action := .ACTION_START }) := by
      funext p a; unfold processArg; rw [if_pos h1]
    rw [e]; exact hstart h1
  by_cases h2 : n = "stop".toList
  · have e : processArg n v = fun _ a => (none, { a with _action := .ACTION_STOP }) := by
      funext p a; unfold processArg; rw [if_neg h1, if_pos h2]
    rw [e]; exact hstop h2
  by_cases h3 : n = "status".toList
  · have e : processArg n v = fun _ a => (none, { a with _action := .ACTION_STATUS }) := by
      funext p a; unfold processArg; rw [if_neg h1, if_neg h2, if_pos h3]
    rw [e]; exact hstatus h3
  by_cases h4 : n.take 3 = "cpu".toList
  · cases he : eventPart n with
    | none =>
      have e : processArg n v = fun _ a => (none, { a with _mode := .MODE_CPU }) := by
        funext p a; unfold processArg; rw [if_neg h1, if_neg h2, if_neg h3, if_pos h4, he]
      rw [e]; exact hcpu h4 he
    | some ev =>
      cases ht : eventOfName ev with
      | none =>
        have e : processArg n v =
            fun _ a => (some "unknown event type", { a with _mode := .MODE_CPU }) := by
          funext p a; unfold processArg
          rw [if_neg h1, if_neg h2, if_neg h3, if_pos h4, he]; dsimp only; rw [ht]
        rw [e]; exact hunknown ev h4 he ht
      | some t =>
        have e : processArg n v =
            fun _ a => (none, { a with _mode := .MODE_CPU, _event_type := t }) := by
          funext p a; unfold processArg
          rw [if_neg h1, if_neg h2, if_neg h3, if_pos h4, he]; dsimp only; rw [ht]
        rw [e]; exact hevent ev t h4 he ht
  by_cases h5 : n = "heap".toList
  · have e : processArg n v = fun _ a => (none, { a with _mode := .MODE_HEAP }) := by
      funext p a; unfold processArg; rw [if_neg h1, if_neg h2, if_neg h3, if_neg h4, if_pos h5]
    rw [e]; exact hheap h5
  by_cases h6 : n = "collapsed".toList ∨ n = "folded".toList
  · have e : processArg n v = fun _ a => (none, { a with
        _action := .ACTION_DUMP
        _dump_collapsed := true
        _counter :=
          if v = none ∨ v = some "samples".toList then .COUNTER_SAMPLES
          else .COUNTER_TOTAL }) := by
      funext p a; unfold processArg
      rw [if_neg h1, if_neg h2, if_neg h3, if_neg h4, if_neg h5, if_pos h6]
    rw [e]; exact hcollapsed h6
  by_cases h7 : n = "summary".toList
  · have e : processArg n v =
        fun _ a => (none, { a with _action := .ACTION_DUMP, _dump_summary := true }) := by
      funext p a; unfold processArg
      rw [if_neg h1, if_neg h2, if_neg h3, if_neg h4, if_neg h5, if_neg h6, if_pos h7]
    rw [e]; exact hsummary h7
  by_cases h8 : n = "traces".toList
  · have e : processArg n v = fun _ a =>
        (none, { a with _action := .ACTION_DUMP, _dump_traces := dumpLimit v }) := by
      funext p a; unfold processArg
      rw [if_neg h1, if_neg h2, if_neg h3, if_neg h4, if_neg h5, if_neg h6, if_neg h7,
        if_pos h8]
    rw [e]; exact htraces h8
  by_cases h9 : n = "flat".toList
  · have e : processArg n v = fun _ a =>
        (none, { a with _action := .ACTION_DUMP, _dump_flat := dumpLimit v }) := by
      funext p a; unfold processArg
      rw [if_neg h1, if_neg h2, if_neg h3, if_neg h4, if_neg h5, if_neg h6, if_neg h7,
        if_neg h8, if_pos h9]
    rw [e]; exact hflat h9
  by_cases h10 : n = "interval".toList
  · cases v with
    | none =>
      have e : processArg n none = fun _ a => (some "interval must be > 0", a) := by
        funext p a; unfold processArg
        rw [if_neg h1, if_neg h2, if_neg h3, if_neg h4, if_neg h5, if_neg h6, if_neg h7,
          if_neg h8, if_neg h9, if_pos h10]
      rw [e]; exact hinterval0 h10 rfl
    | some w =>
      by_cases hw : atoi w ≤ 0
      · have e : processArg n (some w) =
            fun _ a => (some "interval must be > 0", { a with _interval := atoi w }) := by
          funext p a; unfold processArg
          rw [if_neg h1, if_neg h2, if_neg h3, if_neg h4, if_neg h5, if_neg h6, if_neg h7,
            if_neg h8, if_neg h9, if_pos h10]
          dsimp only; rw [if_pos hw]
        rw [e]; exact hinterval1 w h10 rfl hw
      · have e : processArg n (some w) =
            fun _ a => (none, { a with _interval := atoi w }) := by
          funext p a; unfold processArg
          rw [if_neg h1, if_neg h2, if_neg h3, if_neg h4, if_neg h5, if_neg h6, if_neg h7,
            if_neg h8, if_neg h9, if_pos h10]
          dsimp only; rw [if_neg hw]
        rw [e]; exact hinterval2 w h10 rfl (not_le.mp hw)
  by_cases h11 : n = "framebuf".toList
  · cases v with
    | none =>
      have e : processArg n none = fun _ a => (some "framebuf must be > 0", a) := by
        funext p a; unfold processArg
        rw [if_neg h1, if_neg h2, if_neg h3, if_neg h4, if_neg h5, if_neg h6, if_neg h7,
          if_neg h8, if_neg h9, if_neg h10, if_pos h11]
      rw [e]; exact hframebuf0 h11 rfl
    | some w =>
      by_cases hw : atoi w ≤ 0
      · have e : processArg n (some w) =
            fun _ a => (some "framebuf must be > 0", { a with _framebuf := atoi w }) := by
          funext p a; unfold processArg
          rw [if_neg h1, if_neg h2, if_neg h3, if_neg h4, if_neg h5, if_neg h6, if_neg h7,
            if_neg h8, if_neg h9, if_neg h10, if_pos h11]
          dsimp only; rw [if_pos hw]
        rw [e]; exact hframebuf1 w h11 rfl hw
      · have e : processArg n (some w) =
            fun _ a => (none, { a with _framebuf := atoi w }) := by
          funext p a; unfold processArg
          rw [if_neg h1, if_neg h2, if_neg h3, if_neg h4, if_neg h5, if_neg h6, if_neg h7,
            if_neg h8, if_neg h9, if_neg h10, if_pos h11]
          dsimp only; rw [if_neg hw]
        rw [e]; exact hframebuf2 w h11 rfl (not_le.mp hw)
  by_cases h12 : n = "file".toList
  · cases v with
    | none =>
      have e : processArg n none = fun _ a => (some "file must not be empty", a) := by
        funext p a; unfold processArg
        rw [if_neg h1, if_neg h2, if_neg h3, if_neg h4, if_neg h5, if_neg h6, if_neg h7,
          if_neg h8, if_neg h9, if_neg h10, if_neg h11, if_pos h12]
      rw [e]; exact hfile0 h12 rfl
    | some w =>
      by_cases hw : w = []
      · have e : processArg n (some w) = fun _ a => (some "file must not be empty", a) := by
          funext p a; unfold processArg
          rw [if_neg h1, if_neg h2, if_neg h3, if_neg h4, if_neg h5, if_neg h6, if_neg h7,
            if_neg h8, if_neg h9, if_neg h10, if_neg h11, if_pos h12]
          dsimp only; rw [if_pos hw]
        rw [e]; subst hw; exact hfile1 h12 rfl
      · have e : processArg n (some w) = fun p a => (none, { a with _file := some p }) := by
          funext p a; unfold processArg
          rw [if_neg h1, if_neg h2, if_neg h3, if_neg h4, if_neg h5, if_neg h6, if_neg h7,
            if_neg h8, if_neg h9, if_neg h10, if_neg h11, if_pos h12]
          dsimp only; rw [if_neg hw]
        rw [e]; exact hfile2 w h12 rfl hw
  have e : processArg n v = fun _ a => (none, a) := by
    funext p a; unfold processArg
    rw [if_neg h1, if_neg h2, if_neg h3, if_neg h4, if_neg h5, if_neg h6, if_neg h7,
      if_neg h8, if_neg h9, if_neg h10, if_neg h11, if_neg h12]
  rw [e]
  exact hother h1 h2 h3 h4 h5 (fun h => h6 (Or.inl h)) (fun h => h6 (Or.inr h))
    h7 h8 h9 h10 h11 h12

/-- The loop body never writes `_buf`. -/
theorem processArg_buf (n : List Char) (v : Option (List Char)) (p : Nat) (a : Arguments) :
    (processArg n v p a).2._buf = a._buf := by
  apply processArg_cases n v (fun f => (f p a).2._buf = a._buf) <;> intros <;> rfl

/-- Whether the loop body returns a message, and which, depends on the text of
the token only, not on its place and not on the object. -/
theorem processArg_msg_indep (n : List Char) (v : Option (List Char)) (p q : Nat)
    (a b : Arguments) : (processArg n v p a).1 = (processArg n v q b).1 := by
  apply processArg_cases n v (fun f => (f p a).1 = (f q b).1) <;> intros <;> rfl

theorem commaPieces_comma (s : List Char) : commaPieces (',' :: s) = commaPieces s := by
  simp [commaPieces, List.splitOn, List.splitOnP_cons]

theorem commaPieces_dropWhile (s : List Char) :
    commaPieces (s.dropWhile (fun c => c == ',')) = commaPieces s := by
  induction s with
  | nil => rfl
  | cons c cs ih =>
    by_cases hc : c = ','
    · subst hc
      rw [List.dropWhile_cons_of_pos (by simp), ih, commaPieces_comma]
    · rw [List.dropWhile_cons_of_neg (by simpa using hc)]

theorem commaPieces_token (tok r : List Char) (h : ∀ x ∈ tok, x ≠ ',') (hne : tok ≠ []) :
    commaPieces (tok ++ ',' :: r) = tok :: commaPieces r := by
  unfold commaPieces List.splitOn
  rw [List.splitOnP_first (fun c => c == ',') tok
    (fun x hx => by simpa using h x hx) ',' (by simp) r]
  rw [List.filter_cons_of_pos (by simpa using hne)]

theorem commaPieces_single (tok : List Char) (h : ∀ x ∈ tok, x ≠ ',') (hne : tok ≠ []) :
    commaPieces tok = [tok] := by
  unfold commaPieces List.splitOn
  rw [List.splitOnP_eq_single (fun c => c == ',') tok
    (fun x hx => by simpa using h x hx)]
  rw [List.filter_cons_of_pos (by simpa using hne)]
  rfl

theorem tokens_nil (n : Nat) : tokens n [] = [] := by
  cases n <;> rfl

/-- With a fuel above the length of the string, the `strtok` calls yield
exactly the non-empty pieces between the commas, in order. -/
theorem tokens_eq_commaPieces (n : Nat) (s : List Char) (h : s.length < n) :
    tokens n s = commaPieces s := by
  induction n generalizing s with
  | zero => exact absurd h (Nat.not_lt_zero _)
  | succ n ih =>
    unfold tokens strtok
    by_cases hs1 : s.dropWhile (fun c => c == ',') = []
    · simp only [hs1, if_true]
      rw [← commaPieces_dropWhile, hs1]
      rfl
    · simp only [hs1, if_false]
      rw [← commaPieces_dropWhile s]
      have hlen1 : (s.dropWhile (fun c => c == ',')).length ≤ s.length :=
        (List.dropWhile_sublist _).length_le
      have hhead := List.head_dropWhile_not (fun c => c == ',') s
      generalize s.dropWhile (fun c => c == ',') = s1 at hs1 hlen1 hhead ⊢
      have hsplit := List.takeWhile_append_dropWhile (fun c => c != ',') s1
      have htok : ∀ x ∈ s1.takeWhile (fun c => c != ','), x ≠ ',' := by
        intro x hx
        simpa using List.mem_takeWhile_imp hx
      cases s1 with
      | nil => exact absurd rfl hs1
      | cons c cs =>
        have hc : c ≠ ',' := by simpa using hhead (List.cons_ne_nil _ _)
        have hne : (c :: cs).takeWhile (fun c => c != ',') ≠ [] := by
          rw [List.takeWhile_cons_of_pos (by simpa using hc)]
          exact List.cons_ne_nil _ _
        cases hd : (c :: cs).dropWhile (fun c => c != ',') with
        | nil =>
          rw [hd, List.append_nil] at hsplit
          rw [List.drop_nil, tokens_nil, hsplit]
          exact (commaPieces_single (c :: cs) (by rw [← hsplit]; exact htok)
            (List.cons_ne_nil _ _)).symm
        | cons x r =>
          have hx : x = ',' := by
            have := List.head_dropWhile_not (fun c => c != ',') (c :: cs)
              (by rw [hd]; exact List.cons_ne_nil _ _)
            simpa [hd] using this
          subst hx
          have hr : r.length < n := by
            have h1 : ((c :: cs).takeWhile (fun c => c != ',') ++ ',' :: r).length =
                (c :: cs).length := by rw [← hd, hsplit]
            rw [List.length_append, List.length_cons] at h1
            omega
          rw [List.drop_one, List.tail_cons, ih r hr]
          rw [hd] at hsplit
          conv_rhs => rw [← hsplit]
          exact (commaPieces_token _ r htok hne).symm

/-- The arguments of an argument string are the non-empty pieces between the
commas of its C string. -/
theorem argList_eq_commaPieces (args : List Char) :
    argList args = commaPieces (cstr args) :=
  tokens_eq_commaPieces (strlen args + 1) (cstr args) (Nat.lt_succ_self _)

/-- The texts of the tokens with their places are the tokens. -/
theorem tokensAt_text (n pos : Nat) (s : List Char) :
    (tokensAt n pos s).map Token.text = tokens n s := by
  induction n generalizing pos s with
  | zero => rfl
  | succ n ih =>
    unfold tokensAt tokens
    cases strtok s with
    | none => rfl
    | some t =>
      dsimp only
      rw [List.map_cons, ih]

/-- The texts of the arguments with their places are the arguments. -/
theorem argTokens_text (args : List Char) :
    (argTokens args).map Token.text = argList args :=
  tokensAt_text _ _ _

/-- The message of the loop body on a token is `argError` of its text. -/
theorem processArg_msg (t : List Char) (p : Nat) (a : Arguments) :
    (processArg (argName t) (argValue t) p a).1 = argError t :=
  processArg_msg_indep _ _ p 0 a sampleArguments

theorem processToken_msg (t : Token) (a : Arguments) :
    (processToken t a).1 = argError t.text :=
  processArg_msg t.text t.valueAt a

theorem applyArgs_cons (t : Token) (ts : List Token) (a : Arguments) :
    applyArgs (t :: ts) a =
      match processToken t a with
      | (some msg, a') => (some msg, a')
      | (none, a') => applyArgs ts a' := rfl

/-- The loop of `parse` computes what `applyArgs` computes on the tokens that
`strtok` yields. -/
theorem parseLoop_eq (fuel pos : Nat) (s : List Char) (a : Arguments) :
    (parseLoop fuel pos s a).msg = (applyArgs (tokensAt fuel pos s) a).1 ∧
      (parseLoop fuel pos s a).args = (applyArgs (tokensAt fuel pos s) a).2 := by
  induction fuel generalizing pos s a with
  | zero => exact ⟨rfl, rfl⟩
  | succ k ih =>
    unfold parseLoop tokensAt
    cases hs : strtok s with
    | none => exact ⟨rfl, rfl⟩
    | some t =>
      dsimp only
      rw [applyArgs_cons]
      unfold processToken
      dsimp only
      rcases hp : processArg (argName t.token) (argValue t.token)
        (Token.valueAt ⟨pos + t.skipped.length, t.token⟩) a with ⟨m, a'⟩
      cases m with
      | some msg => exact ⟨rfl, rfl⟩
      | none => exact ih _ t.rest a'

theorem applyArgs_buf (ts : List Token) (a : Arguments) :
    (applyArgs ts a).2._buf = a._buf := by
  induction ts generalizing a with
  | nil => rfl
  | cons t ts ih =>
    rw [applyArgs_cons]
    have hb := processArg_buf (argName t.text) (argValue t.text) t.valueAt a
    change (processToken t a).2._buf = a._buf at hb
    rcases hp : processToken t a with ⟨m, a'⟩
    rw [hp] at hb
    cases m with
    | some msg => exact hb
    | none => exact (ih a').trans hb

/-- Below the length limit, `parse` returns the message of `applyArgs` on the
arguments of the string, and leaves every data member other than `_buf` as
`applyArgs` leaves it. -/
theorem parse_eq_applyArgs (bufSize : Nat) (args : List Char) (a : Arguments)
    (hlen : strlen args < bufSize) :
    (parse bufSize args a).1 = (applyArgs (argTokens args) a).1 ∧
      (parse bufSize args a).2 =
        { (applyArgs (argTokens args) a).2 with _buf := (parse bufSize args a).2._buf } := by
  have h := parseLoop_eq (strlen args + 1) 0 (cstr args) a
  unfold parse
  rw [if_neg (not_le.mpr hlen)]
  dsimp only
  unfold argTokens
  rw [h.1, h.2]
  exact ⟨rfl, rfl⟩

/-- At or above the length limit, `parse` returns without touching the object. -/
theorem parse_too_long (bufSize : Nat) (args : List Char) (a : Arguments)
    (hlen : bufSize ≤ strlen args) :
    parse bufSize args a = (some "Argument list too long", a) := by
  unfold parse
  rw [if_pos hlen]

/-- A call that returns `NULL` was below the length limit. -/
theorem strlen_lt_of_ok (bufSize : Nat) (args : List Char) (a : Arguments)
    (h : (parse bufSize args a).1 = none) : strlen args < bufSize := by
  by_contra hge
  rw [parse_too_long bufSize args a (not_lt.mp hge)] at h
  simp at h

/-- A message returned by `applyArgs` comes from the first token on which the
loop body returns one; the tokens before it have been applied. -/
theorem applyArgs_error_split (ts : List Token) (a : Arguments) (msg : String)
    (h : (applyArgs ts a).1 = some msg) :
    ∃ pre t post, ts = pre ++ t :: post ∧ (applyArgs pre a).1 = none ∧
      argError t.text = some msg ∧
      applyArgs ts a = processToken t (applyArgs pre a).2 := by
  induction ts generalizing a with
  | nil => simp [applyArgs] at h
  | cons t ts ih =>
    rw [applyArgs_cons] at h ⊢
    have hm := processToken_msg t a
    rcases hp : processToken t a with ⟨m, a'⟩
    rw [hp] at h hm
    cases m with
    | some m' =>
      refine ⟨[], t, ts, rfl, rfl, ?_, ?_⟩
      · rw [← hm]; exact h
      · simp only [applyArgs]; rw [hp]
    | none =>
      obtain ⟨pre, u, post, hts, hpre, hu, heq⟩ := ih a' h
      refine ⟨t :: pre, u, post, by rw [hts]; rfl, ?_, hu, ?_⟩
      · rw [applyArgs_cons, hp]; exact hpre
      · rw [applyArgs_cons, hp]; exact heq

/-- The message of `applyArgs` is the message of the first token that has one. -/
theorem applyArgs_msg (ts : List Token) (a : Arguments) :
    (applyArgs ts a).1 = (ts.map Token.text).findSome? argError := by
  induction ts generalizing a with
  | nil => rfl
  | cons t ts ih =>
    rw [applyArgs_cons]
    have hm := processToken_msg t a
    rcases hp : processToken t a with ⟨m, a'⟩
    rw [hp] at hm
    simp only at hm
    cases m with
    | some m' => simp [List.findSome?, ← hm]
    | none => simp [List.findSome?, ← hm, ih a']

/-- Below the length limit, the message of `parse` is the message of the first
argument that has one. -/
theorem parse_msg (bufSize : Nat) (args : List Char) (a : Arguments)
    (hlen : strlen args < bufSize) :
    (parse bufSize args a).1 = (argList args).findSome? argError := by
  rw [(parse_eq_applyArgs bufSize args a hlen).1, applyArgs_msg, argTokens_text]

/-- A token with a message makes the loop return some message. -/
theorem firstError_of_mem (ts : List (List Char)) (t : List Char)
    (ht : t ∈ ts) (hterr : argError t ≠ none) : ts.findSome? argError ≠ none := by
  induction ts with
  | nil => simp at ht
  | cons u us ih =>
    simp only [List.findSome?]
    cases hu : argError u with
    | some m => simp
    | none =>
      rcases List.mem_cons.mp ht with h | h
      · subst h; exact absurd hu hterr
      · exact ih h

/-- When no token before `t` has a message, the loop returns the one of `t`. -/
theorem firstError_eq (pre post : List (List Char)) (t : List Char)
    (msg : String) (hpre : ∀ p ∈ pre, argError p = none) (hterr : argError t = some msg) :
    (pre ++ t :: post).findSome? argError = some msg := by
  induction pre with
  | nil => simp [List.findSome?, hterr]
  | cons u us ih =>
    have hu : argError u = none := hpre u (List.mem_cons_self u us)
    simp only [List.cons_append, List.findSome?, hu]
    exact ih (fun p hp => hpre p (List.mem_cons_of_mem u hp))

/-- Without a token that has a message, the loop returns none. -/
theorem firstError_none (ts : List (List Char))
    (h : ∀ t ∈ ts, argError t = none) : ts.findSome? argError = none := by
  induction ts with
  | nil => rfl
  | cons u us ih =>
    simp only [List.findSome?, h u (List.mem_cons_self u us)]
    exact ih (fun p hp => h p (List.mem_cons_of_mem u hp))

/-- What the loop body has done when it returns a message, for each of its
four messages: a name beginning with `cpu` has set the mode to CPU before its
event name is rejected; an `interval` or `framebuf` argument with a value has
stored the rejected value; nothing else is changed. -/
theorem processArg_error_exact (n : List Char) (v : Option (List Char)) (p : Nat)
    (b : Arguments) (msg : String) (h : (processArg n v p b).1 = some msg) :
    (msg = "unknown event type" ∧
      (processArg n v p b).2 = { b with _mode := .MODE_CPU }) ∨
    (msg = "interval must be > 0" ∧ n = "interval".toList ∧
      ((v = none ∧ (processArg n v p b).2 = b) ∨
        ∃ w, v = some w ∧ atoi w ≤ 0 ∧
          (processArg n v p b).2 = { b with _interval := atoi w })) ∨
    (msg = "framebuf must be > 0" ∧ n = "framebuf".toList ∧
      ((v = none ∧ (processArg n v p b).2 = b) ∨
        ∃ w, v = some w ∧ atoi w ≤ 0 ∧
          (processArg n v p b).2 = { b with _framebuf := atoi w })) ∨
    (msg = "file must not be empty" ∧ n = "file".toList ∧ (processArg n v p b).2 = b) := by
  revert h
  apply processArg_cases n v (fun f => (f p b).1 = some msg →
    (msg = "unknown event type" ∧ (f p b).2 = { b with _mode := .MODE_CPU }) ∨
    (msg = "interval must be > 0" ∧ n = "interval".toList ∧
      ((v = none ∧ (f p b).2 = b) ∨
        ∃ w, v = some w ∧ atoi w ≤ 0 ∧ (f p b).2 = { b with _interval := atoi w })) ∨
    (msg = "framebuf must be > 0" ∧ n = "framebuf".toList ∧
      ((v = none ∧ (f p b).2 = b) ∨
        ∃ w, v = some w ∧ atoi w ≤ 0 ∧ (f p b).2 = { b with _framebuf := atoi w })) ∨
    (msg = "file must not be empty" ∧ n = "file".toList ∧ (f p b).2 = b))
  case hunknown =>
    intro e _ _ _ h
    exact Or.inl ⟨(Option.some.inj h).symm, rfl⟩
  case hinterval0 =>
    intro hn hv h
    exact Or.inr (Or.inl ⟨(Option.some.inj h).symm, hn, Or.inl ⟨hv, rfl⟩⟩)
  case hinterval1 =>
    intro w hn hv hw h
    exact Or.inr (Or.inl ⟨(Option.some.inj h).symm, hn, Or.inr ⟨w, hv, hw, rfl⟩⟩)
  case hframebuf0 =>
    intro hn hv h
    exact Or.inr (Or.inr (Or.inl ⟨(Option.some.inj h).symm, hn, Or.inl ⟨hv, rfl⟩⟩))
  case hframebuf1 =>
    intro w hn hv hw h
    exact Or.inr (Or.inr (Or.inl ⟨(Option.some.inj h).symm, hn, Or.inr ⟨w, hv, hw, rfl⟩⟩))
  case hfile0 =>
    intro hn _ h
    exact Or.inr (Or.inr (Or.inr ⟨(Option.some.inj h).symm, hn, rfl⟩))
  case hfile1 =>
    intro hn _ h
    exact Or.inr (Or.inr (Or.inr ⟨(Option.some.inj h).symm, hn, rfl⟩))
  all_goals intros
  all_goals (rename_i h; exact absurd h (by simp))

/-- The message of the loop body on an `interval` argument. -/
theorem argError_interval (t : List Char) (hn : argName t = "interval".toList) :
    argError t =
      match argValue t with
      | none => some "interval must be > 0"
      | some v => if atoi v ≤ 0 then some "interval must be > 0" else none := by
  unfold argError
  generalize argValue t = v
  rw [hn]
  apply processArg_cases "interval".toList v (fun f => (f 0 sampleArguments).1 = _)
  all_goals intros
  all_goals first
    | (exfalso; revert ‹_ = _›; decide)
    | (rename_i w _ hw; subst_vars; exact (if_neg (not_le.mpr hw)).symm)
    | simp_all

/-- The message of the loop body on a `framebuf` argument. -/
theorem argError_framebuf (t : List Char) (hn : argName t = "framebuf".toList) :
    argError t =
      match argValue t with
      | none => some "framebuf must be > 0"
      | some v => if atoi v ≤ 0 then some "framebuf must be > 0" else none := by
  unfold argError
  generalize argValue t = v
  rw [hn]
  apply processArg_cases "framebuf".toList v (fun f => (f 0 sampleArguments).1 = _)
  all_goals intros
  all_goals first
    | (exfalso; revert ‹_ = _›; decide)
    | (rename_i w _ hw; subst_vars; exact (if_neg (not_le.mpr hw)).symm)
    | simp_all

/-- The loop body, when it falls through, keeps `_interval` and `_framebuf`
positive. -/
theorem processArg_keeps_positive (n : List Char) (v : Option (List Char)) (p : Nat)
    (a : Arguments) (hi : 0 < a._interval) (hf : 0 < a._framebuf)
    (h : (processArg n v p a).1 = none) :
    0 < (processArg n v p a).2._interval ∧ 0 < (processArg n v p a).2._framebuf := by
  revert h
  apply processArg_cases n v (fun f => (f p a).1 = none →
    0 < (f p a).2._interval ∧ 0 < (f p a).2._framebuf)
  all_goals intros
  all_goals first
    | exact ⟨hi, hf⟩
    | exact ⟨by assumption, hf⟩
    | exact ⟨hi, by assumption⟩
    | simp_all

theorem applyArgs_keeps_positive (ts : List Token) (a : Arguments)
    (hi : 0 < a._interval) (hf : 0 < a._framebuf) (h : (applyArgs ts a).1 = none) :
    0 < (applyArgs ts a).2._interval ∧ 0 < (applyArgs ts a).2._framebuf := by
  induction ts generalizing a with
  | nil => exact ⟨hi, hf⟩
  | cons t ts ih =>
    rw [applyArgs_cons] at h ⊢
    have hp : (processToken t a).1 = none →
        0 < (processToken t a).2._interval ∧ 0 < (processToken t a).2._framebuf :=
      processArg_keeps_positive (argName t.text) (argValue t.text) t.valueAt a hi hf
    rcases hq : processToken t a with ⟨m, a'⟩
    rw [hq] at h hp
    cases m with
    | some msg => simp at h
    | none => exact ih a' (hp rfl).1 (hp rfl).2 h

/-- The loop body never returns a message on a `traces` or `flat` argument. -/
theorem argError_dump_limit (t : List Char)
    (hn : argName t = "traces".toList ∨ argName t = "flat".toList) : argError t = none := by
  unfold argError
  generalize argValue t = v
  rcases hn with hn | hn <;> rw [hn]
  · apply processArg_cases "traces".toList v (fun f => (f 0 sampleArguments).1 = none)
    all_goals intros
    all_goals first
      | rfl
      | simp_all
  · apply processArg_cases "flat".toList v (fun f => (f 0 sampleArguments).1 = none)
    all_goals intros
    all_goals first
      | rfl
      | simp_all

/-- Reading digits stops at the first character that is not a digit. -/
theorem digitsValue_append (d : List Char) (c : Char) (rest : List Char) (acc : Nat)
    (hd : ∀ x ∈ d, isdigit x = true) (hc : isdigit c = false) :
    digitsValue (d ++ c :: rest) acc = digitsValue d acc := by
  induction d generalizing acc with
  | nil => simp [digitsValue, hc]
  | cons x xs ih =>
    have hx : isdigit x = true := hd x (List.mem_cons_self x xs)
    simp only [List.cons_append, digitsValue, hx, if_true]
    exact ih _ (fun y hy => hd y (List.mem_cons_of_mem x hy))

/-- A digit is neither white space nor a sign. -/
theorem isdigit_not_space_sign (x : Char) (hx : isdigit x = true) :
    isspace x = false ∧ x ≠ '-' ∧ x ≠ '+' := by
  have h : 48 ≤ x.toNat ∧ x.toNat ≤ 57 := by
    simpa [isdigit] using hx
  refine ⟨?_, ?_, ?_⟩
  · have hne : x ≠ ' ' := by
      rintro rfl
      revert h; decide
    simp only [isspace, Bool.or_eq_false_iff, beq_eq_false_iff_ne, ne_eq, hne,
      not_false_eq_true, Bool.and_eq_false_imp, decide_eq_true_eq, decide_eq_false_iff_not,
      true_and]
    omega
  · rintro rfl
    revert h; decide
  · rintro rfl
    revert h; decide

/-- On a string that starts with a digit `strtol` reads the digits. -/
theorem strtol_digit_cons (x : Char) (r : List Char) (hx : isdigit x = true) :
    strtol (x :: r) = min (digitsValue (x :: r) 0 : Int) LONG_MAX := by
  obtain ⟨hs, hm, hp⟩ := isdigit_not_space_sign x hx
  unfold strtol
  simp only [List.dropWhile_cons, hs, Bool.false_eq_true, if_false]
  split
  · rename_i heq; exact absurd (List.cons.inj heq).1 hm
  · rename_i heq; exact absurd (List.cons.inj heq).1 hp
  · rfl

/-- The function `atoi` reads a value that starts with a digit up to its first
character that is not a digit and ignores the rest. -/
theorem atoi_ignores_rest (d : List Char) (c : Char) (rest : List Char)
    (hne : d ≠ []) (hd : ∀ x ∈ d, isdigit x = true) (hc : isdigit c = false) :
    atoi (d ++ c :: rest) = atoi d := by
  cases d with
  | nil => exact absurd rfl hne
  | cons x xs =>
    have hx := hd x (List.mem_cons_self x xs)
    have hv := digitsValue_append (x :: xs) c rest 0 hd hc
    unfold atoi
    rw [List.cons_append, strtol_digit_cons x _ hx, strtol_digit_cons x _ hx,
      ← List.cons_append, hv]

/-- Tokens applied without a message can be split off the front. -/
theorem applyArgs_append_ok (pre ts : List Token) (a b : Arguments)
    (hpre : applyArgs pre a = (none, b)) : applyArgs (pre ++ ts) a = applyArgs ts b := by
  induction pre generalizing a with
  | nil =>
    simp only [applyArgs, Prod.mk.injEq, true_and] at hpre
    rw [List.nil_append, hpre]
  | cons t pre ih =>
    rw [List.cons_append, applyArgs_cons]
    rw [applyArgs_cons] at hpre
    rcases hp : processToken t a with ⟨m, a'⟩
    rw [hp] at hpre
    cases m with
    | some msg => simp at hpre
    | none => exact ih a' hpre

/-- The loop body on a name of the form `cpu:E`. -/
theorem processArg_cpu_event (E : List Char) (v : Option (List Char)) (p : Nat)
    (b : Arguments) :
    processArg ("cpu:".toList ++ E) v p b =
      match eventOfName E with
      | some ev => (none, { b with _mode := .MODE_CPU, _event_type := ev })
      | none => (some "unknown event type", { b with _mode := .MODE_CPU }) := by
  have hpart : eventPart ("cpu:".toList ++ E) = some E := by
    simp [eventPart, List.dropWhile]
  apply processArg_cases ("cpu:".toList ++ E) v (fun f => f p b = _)
  case hevent =>
    intro e t _ he ht
    rw [hpart] at he
    cases Option.some.inj he
    rw [ht]
  case hunknown =>
    intro e _ he ht
    rw [hpart] at he
    cases Option.some.inj he
    rw [ht]
  all_goals intros
  all_goals simp_all

/-- The loop body on the name `cpu`. -/
theorem processArg_cpu_bare (v : Option (List Char)) (p : Nat) (b : Arguments) :
    processArg "cpu".toList v p b = (none, { b with _mode := .MODE_CPU }) := by
  have hpart : eventPart "cpu".toList = none := by decide
  apply processArg_cases "cpu".toList v (fun f => f p b = _)
  case hcpu => intros; rfl
  all_goals intros
  all_goals simp_all

/-- The `strcmp` chain on event names selects exactly the pairs of
`eventNames`. -/
theorem eventOfName_eq_some_iff (E : List Char) (ev : EventType) :
    eventOfName E = some ev ↔ (E, ev) ∈ eventNames := by
  constructor
  · intro h
    unfold eventOfName at h
    by_cases h1 : E = "cycles".toList
    · rw [if_pos h1] at h; cases h; subst h1; decide
    rw [if_neg h1] at h
    by_cases h2 : E = "context-switches".toList
    · rw [if_pos h2] at h; cases h; subst h2; decide
    rw [if_neg h2] at h
    by_cases h3 : E = "branch-misses".toList
    · rw [if_pos h3] at h; cases h; subst h3; decide
    rw [if_neg h3] at h
    by_cases h4 : E = "cache-misses".toList
    · rw [if_pos h4] at h; cases h; subst h4; decide
    rw [if_neg h4] at h
    by_cases h5 : E = "L1-dcache-load-misses".toList
    · rw [if_pos h5] at h; cases h; subst h5; decide
    rw [if_neg h5] at h
    by_cases h6 : E = "LLC-load-misses".toList
    · rw [if_pos h6] at h; cases h; subst h6; decide
    rw [if_neg h6] at h
    cases h
  · intro h
    simp only [eventNames, List.mem_cons, Prod.mk.injEq, List.mem_singleton, List.mem_nil_iff,
      or_false] at h
    rcases h with ⟨rfl, rfl⟩ | ⟨rfl, rfl⟩ | ⟨rfl, rfl⟩ | ⟨rfl, rfl⟩ | ⟨rfl, rfl⟩ | ⟨rfl, rfl⟩ <;>
      decide

/-- No message of the loop body is the message of the length check. -/
theorem argError_ne_too_long (t : List Char) :
    argError t ≠ some "Argument list too long" := by
  unfold argError
  apply processArg_cases (argName t) (argValue t)
    (fun f => (f 0 sampleArguments).1 ≠ some "Argument list too long")
  all_goals intros
  all_goals (dsimp only; decide)

/-- The loop body applied to one token. -/
theorem applyArgs_single (t : Token) (a : Arguments) :
    applyArgs [t] a = processToken t a := by
  rw [applyArgs_cons]
  rcases processToken t a with ⟨m, a'⟩
  cases m <;> rfl

/-- When a list of tokens is applied without a message, so is every front part
of it, and the rest is applied to what the front part left. -/
theorem applyArgs_append_none (pre ts : List Token) (a : Arguments)
    (h : (applyArgs (pre ++ ts) a).1 = none) :
    ∃ b, applyArgs pre a = (none, b) ∧ applyArgs (pre ++ ts) a = applyArgs ts b := by
  induction pre generalizing a with
  | nil => exact ⟨a, rfl, rfl⟩
  | cons t pre ih =>
    rw [List.cons_append, applyArgs_cons] at h ⊢
    rw [applyArgs_cons]
    rcases hp : processToken t a with ⟨m, a'⟩
    rw [hp] at h
    cases m with
    | some msg => simp at h
    | none => exact ih a' h

/-- A data member that the loop body changes only on tokens with the property
`P` is left alone by a list of tokens without the property. -/
theorem applyArgs_keep {β : Type} (proj : Arguments → β) (P : Token → Prop)
    (hkeep : ∀ t a, ¬ P t → proj (processToken t a).2 = proj a)
    (ts : List Token) (a : Arguments) (hno : ∀ u ∈ ts, ¬ P u) :
    proj (applyArgs ts a).2 = proj a := by
  induction ts generalizing a with
  | nil => rfl
  | cons t ts ih =>
    rw [applyArgs_cons]
    have hk := hkeep t a (hno t (List.mem_cons_self t ts))
    rcases hp : processToken t a with ⟨m, a'⟩
    rw [hp] at hk
    cases m with
    | some msg => exact hk
    | none => exact (ih a' (fun u hu => hno u (List.mem_cons_of_mem t hu))).trans hk

/-- A data member that the loop body changes only on tokens with the property
`P`, and sets to `val t` on such a token `t` when it accepts it, holds after a
list of tokens applied without a message the value of the last token with the
property. -/
theorem applyArgs_last {β : Type} (proj : Arguments → β) (P : Token → Prop)
    (val : Token → β)
    (hkeep : ∀ t a, ¬ P t → proj (processToken t a).2 = proj a)
    (hset : ∀ t a, P t → (processToken t a).1 = none → proj (processToken t a).2 = val t)
    (pre post : List Token) (t : Token) (a : Arguments)
    (h : (applyArgs (pre ++ t :: post) a).1 = none) (ht : P t) (hpost : ∀ u ∈ post, ¬ P u) :
    proj (applyArgs (pre ++ t :: post) a).2 = val t := by
  obtain ⟨b, -, hb⟩ := applyArgs_append_none pre (t :: post) a h
  rw [hb] at h ⊢
  obtain ⟨c, hc, hc'⟩ := applyArgs_append_none [t] post b h
  rw [List.singleton_append] at hc'
  rw [hc', applyArgs_keep proj P hkeep post c hpost]
  rw [applyArgs_single] at hc
  have := hset t b ht (by rw [hc])
  rw [hc] at this
  exact this

/-- A list of tokens whose texts split into a front part, a text and a rest
splits in the same way. -/
theorem split_of_text (ts : List Token) (pre post : List (List Char)) (t : List Char)
    (h : ts.map Token.text = pre ++ t :: post) :
    ∃ pre' t' post', ts = pre' ++ t' :: post' ∧ pre'.map Token.text = pre ∧
      t'.text = t ∧ post'.map Token.text = post := by
  obtain ⟨l1, l2, hts, h1, h2⟩ := List.map_eq_append_iff.mp h
  obtain ⟨t', l3, hl2, ht', h3⟩ := List.map_eq_cons_iff.mp h2
  exact ⟨l1, t', l3, by rw [hts, hl2], h1, ht', h3⟩

/-- The text form of `applyArgs_keep`: the property is one of the text of a
token. -/
theorem applyArgs_keep_text {β : Type} (proj : Arguments → β) (P : List Char → Prop)
    (hkeep : ∀ t p a, ¬ P t → proj (processArg (argName t) (argValue t) p a).2 = proj a)
    (ts : List Token) (a : Arguments) (hno : ∀ u ∈ ts.map Token.text, ¬ P u) :
    proj (applyArgs ts a).2 = proj a :=
  applyArgs_keep proj (fun t => P t.text) (fun t a h => hkeep t.text t.valueAt a h) ts a
    (fun u hu => hno u.text (List.mem_map_of_mem Token.text hu))

/-- The text form of `applyArgs_last`: the property and the value are ones of
the text of a token. -/
theorem applyArgs_last_text {β : Type} (proj : Arguments → β) (P : List Char → Prop)
    (val : List Char → β)
    (hkeep : ∀ t p a, ¬ P t → proj (processArg (argName t) (argValue t) p a).2 = proj a)
    (hset : ∀ t p a, P t → (processArg (argName t) (argValue t) p a).1 = none →
      proj (processArg (argName t) (argValue t) p a).2 = val t)
    (ts : List Token) (pre post : List (List Char)) (t : List Char) (a : Arguments)
    (hsplit : ts.map Token.text = pre ++ t :: post)
    (h : (applyArgs ts a).1 = none) (ht : P t) (hpost : ∀ u ∈ post, ¬ P u) :
    proj (applyArgs ts a).2 = val t := by
  obtain ⟨pre', t', post', hts, -, ht', hpost'⟩ := split_of_text ts pre post t hsplit
  subst hts ht' hpost'
  exact applyArgs_last proj (fun t => P t.text) (fun t => val t.text)
    (fun t a h => hkeep t.text t.valueAt a h) (fun t a h1 h2 => hset t.text t.valueAt a h1 h2)
    pre' post' t' a h ht
    (fun u hu => hpost u.text (List.mem_map_of_mem Token.text hu))

/-- A list with an element that has a property has a last such element. -/
theorem exists_last_with {α : Type} (P : α → Prop) (ts : List α) (h : ∃ t ∈ ts, P t) :
    ∃ pre t post, ts = pre ++ t :: post ∧ P t ∧ ∀ u ∈ post, ¬ P u := by
  induction ts with
  | nil => obtain ⟨t, ht, -⟩ := h; simp at ht
  | cons x xs ih =>
    by_cases hx : ∃ t ∈ xs, P t
    · obtain ⟨pre, t, post, hsplit, ht, hpost⟩ := ih hx
      exact ⟨x :: pre, t, post, by rw [hsplit]; rfl, ht, hpost⟩
    · obtain ⟨t, ht, hPt⟩ := h
      rcases List.mem_cons.mp ht with rfl | hmem
      · exact ⟨[], t, xs, rfl, hPt, fun u hu hPu => hx ⟨u, hu, hPu⟩⟩
      · exact absurd ⟨t, hmem, hPt⟩ hx

/-- The settings after `parse`, below the length limit, are the ones
`applyArgs` leaves. -/
theorem parse_settings (bufSize : Nat) (args : List Char) (a : Arguments)
    (hlen : strlen args < bufSize) :
    (parse bufSize args a).2.settings = (applyArgs (argTokens args) a).2.settings := by
  rw [(parse_eq_applyArgs bufSize args a hlen).2]
  rfl

/-- The message of the loop body on a `file` argument. -/
theorem argError_file (t : List Char) (hn : argName t = "file".toList) :
    argError t =
      match argValue t with
      | none => some "file must not be empty"
      | some v => if v = [] then some "file must not be empty" else none := by
  unfold argError
  generalize argValue t = v
  rw [hn]
  apply processArg_cases "file".toList v (fun f => (f 0 sampleArguments).1 = _)
  all_goals intros
  all_goals first
    | (rename_i w _ hw; subst_vars; exact (if_neg hw).symm)
    | simp_all

/-- Only a `file` argument changes `_file`. -/
theorem processArg_file_keep (t : List Char) (p : Nat) (a : Arguments)
    (hn : argName t ≠ "file".toList) :
    (processArg (argName t) (argValue t) p a).2._file = a._file := by
  revert hn
  apply processArg_cases (argName t) (argValue t)
    (fun f => argName t ≠ "file".toList → (f p a).2._file = a._file)
  all_goals intros
  all_goals first
    | rfl
    | contradiction

/-- An accepted `file` argument points `_file` to its value. -/
theorem processArg_file_set (t : List Char) (p : Nat) (a : Arguments)
    (hn : argName t = "file".toList)
    (h : (processArg (argName t) (argValue t) p a).1 = none) :
    (processArg (argName t) (argValue t) p a).2._file = some p := by
  revert h
  rw [hn]
  generalize argValue t = v
  apply processArg_cases "file".toList v
    (fun f => (f p a).1 = none → (f p a).2._file = some p)
  all_goals intros
  all_goals simp_all

/-- A message of the loop body leaves `_file` alone. -/
theorem processArg_file_of_error (n : List Char) (v : Option (List Char)) (p : Nat)
    (a : Arguments) (h : (processArg n v p a).1 ≠ none) :
    (processArg n v p a).2._file = a._file := by
  revert h
  apply processArg_cases n v (fun f => (f p a).1 ≠ none → (f p a).2._file = a._file)
  all_goals intros
  all_goals first
    | rfl
    | (rename_i h; exact absurd rfl h)

theorem argName_file_eq (v : List Char) : argName ("file=".toList ++ v) = "file".toList :=
  rfl

theorem argValue_file_eq (v : List Char) : argValue ("file=".toList ++ v) = some v :=
  rfl

/-- A name that begins with `cpu` is none of the twelve names. -/
theorem not_known_of_cpu (n : List Char) (h : n.take 3 = "cpu".toList) : n ∉ knownNames := by
  intro hmem
  have hall : ∀ k ∈ knownNames, k.take 3 ≠ "cpu".toList := by decide
  exact hall n hmem h

/-- The action the loop body leaves: the one the name selects, and the former
one for a name that selects none. -/
theorem processArg_action (n : List Char) (v : Option (List Char)) (p : Nat)
    (a : Arguments) : (processArg n v p a).2._action = (actionOfName n).getD a._action := by
  have hcpu : n.take 3 = "cpu".toList → actionOfName n = none := by
    intro h
    have hk := not_known_of_cpu n h
    unfold actionOfName
    rw [if_neg (fun e => hk (by rw [e]; decide)), if_neg (fun e => hk (by rw [e]; decide)),
      if_neg (fun e => hk (by rw [e]; decide)), if_neg]
    rintro (e | e | e | e | e) <;> exact hk (by rw [e]; decide)
  apply processArg_cases n v (fun f => (f p a).2._action = (actionOfName n).getD a._action)
  case hcpu => intro h _; rw [hcpu h]; rfl
  case hevent => intro e t h _ _; rw [hcpu h]; rfl
  case hunknown => intro e h _ _; rw [hcpu h]; rfl
  case hcollapsed => rintro (h | h) <;> rw [h] <;> rfl
  case hother =>
    intro h1 h2 h3 _ _ h6 h7 h8 h9 h10 _ _ _
    unfold actionOfName
    rw [if_neg h1, if_neg h2, if_neg h3, if_neg]
    · rfl
    · rintro (e | e | e | e | e)
      exacts [h6 e, h7 e, h8 e, h9 e, h10 e]
  all_goals intros
  all_goals subst_vars
  all_goals rfl

/-- Only `collapsed` and `folded` change `_dump_collapsed`. -/
theorem processArg_dump_collapsed_keep (t : List Char) (p : Nat) (a : Arguments)
    (hn : ¬ (argName t = "collapsed".toList ∨ argName t = "folded".toList)) :
    (processArg (argName t) (argValue t) p a).2._dump_collapsed = a._dump_collapsed := by
  revert hn
  apply processArg_cases (argName t) (argValue t)
    (fun f => ¬ (argName t = "collapsed".toList ∨ argName t = "folded".toList) →
      (f p a).2._dump_collapsed = a._dump_collapsed)
  all_goals intros
  all_goals first
    | rfl
    | contradiction

/-- Only `summary` changes `_dump_summary`. -/
theorem processArg_dump_summary_keep (t : List Char) (p : Nat) (a : Arguments)
    (hn : argName t ≠ "summary".toList) :
    (processArg (argName t) (argValue t) p a).2._dump_summary = a._dump_summary := by
  revert hn
  apply processArg_cases (argName t) (argValue t)
    (fun f => argName t ≠ "summary".toList → (f p a).2._dump_summary = a._dump_summary)
  all_goals intros
  all_goals first
    | rfl
    | contradiction

/-- Only `traces` changes `_dump_traces`. -/
theorem processArg_dump_traces_keep (t : List Char) (p : Nat) (a : Arguments)
    (hn : argName t ≠ "traces".toList) :
    (processArg (argName t) (argValue t) p a).2._dump_traces = a._dump_traces := by
  revert hn
  apply processArg_cases (argName t) (argValue t)
    (fun f => argName t ≠ "traces".toList → (f p a).2._dump_traces = a._dump_traces)
  all_goals intros
  all_goals first
    | rfl
    | contradiction

/-- Only `flat` changes `_dump_flat`. -/
theorem processArg_dump_flat_keep (t : List Char) (p : Nat) (a : Arguments)
    (hn : argName t ≠ "flat".toList) :
    (processArg (argName t) (argValue t) p a).2._dump_flat = a._dump_flat := by
  revert hn
  apply processArg_cases (argName t) (argValue t)
    (fun f => argName t ≠ "flat".toList → (f p a).2._dump_flat = a._dump_flat)
  all_goals intros
  all_goals first
    | rfl
    | contradiction

/-- The loop body on `collapsed` and on `folded`. -/
theorem processArg_collapsed (n : List Char) (v : Option (List Char)) (p : Nat) (a : Arguments)
    (hn : n = "collapsed".toList ∨ n = "folded".toList) :
    processArg n v p a =
      (none, { a with
        _action := .ACTION_DUMP
        _dump_collapsed := true
        _counter :=
          if v = none ∨ v = some "samples".toList then .COUNTER_SAMPLES
          else .COUNTER_TOTAL }) := by
  rcases hn with hn | hn <;> rw [hn] <;> rfl

/-- The loop body on `summary`. -/
theorem processArg_summary (v : Option (List Char)) (p : Nat) (a : Arguments) :
    processArg "summary".toList v p a =
      (none, { a with _action := .ACTION_DUMP, _dump_summary := true }) := rfl

/-- The loop body on `traces`. -/
theorem processArg_traces (v : Option (List Char)) (p : Nat) (a : Arguments) :
    processArg "traces".toList v p a =
      (none, { a with _action := .ACTION_DUMP, _dump_traces := dumpLimit v }) := rfl

/-- The loop body on `flat`. -/
theorem processArg_flat (v : Option (List Char)) (p : Nat) (a : Arguments) :
    processArg "flat".toList v p a =
      (none, { a with _action := .ACTION_DUMP, _dump_flat := dumpLimit v }) := rfl

/-- A token with the name `folded` is `folded` or `folded=C`. -/
theorem folded_token_cases (t : List Char) (hn : argName t = "folded".toList) :
    t = "folded".toList ∨ ∃ v, t = "folded=".toList ++ v := by
  have hsplit := List.takeWhile_append_dropWhile (fun c => c != '=') t
  unfold argName at hn
  rw [hn] at hsplit
  cases hd : t.dropWhile (fun c => c != '=') with
  | nil =>
    rw [hd, List.append_nil] at hsplit
    exact Or.inl hsplit.symm
  | cons c v =>
    have hc : c = '=' := by
      have := List.head_dropWhile_not (fun c => c != '=') t
        (by rw [hd]; exact List.cons_ne_nil _ _)
      simpa [hd] using this
    subst hc
    rw [hd] at hsplit
    exact Or.inr ⟨v, hsplit.symm⟩

/-- Rewriting `folded` to `collapsed` in a token does not change what the loop
body does on it. -/
theorem processArg_foldedRenamed (t t' : List Char) (h : FoldedRenamed t t') :
    processArg (argName t') (argValue t') = processArg (argName t) (argValue t) := by
  rcases h with rfl | ⟨hn, rfl⟩
  · rfl
  · rcases folded_token_cases t hn with rfl | ⟨v, rfl⟩
    · rfl
    · funext p a
      have e1 : argName ("collapsed".toList ++ ("folded=".toList ++ v).drop 6) =
          "collapsed".toList := rfl
      have e2 : argValue ("collapsed".toList ++ ("folded=".toList ++ v).drop 6) = some v := rfl
      have e3 : argName ("folded=".toList ++ v) = "folded".toList := rfl
      have e4 : argValue ("folded=".toList ++ v) = some v := rfl
      rw [e1, e2, e3, e4, processArg_collapsed _ _ p a (Or.inl rfl),
        processArg_collapsed _ _ p a (Or.inr rfl)]

/-- On an unrecognised name the loop body does nothing. -/
theorem processArg_unrecognised (n : List Char) (v : Option (List Char))
    (h : unrecognised n) : processArg n v = fun _ a => (none, a) := by
  obtain ⟨hk, hc⟩ := h
  apply processArg_cases n v (fun f => f = fun _ a => (none, a))
  case hother => intros; rfl
  case hcollapsed => rintro (e | e) <;> exact absurd (by rw [e]; decide) hk
  all_goals intros
  all_goals first
    | contradiction
    | (rename_i e; exact absurd (by rw [e]; decide) hk)
    | (rename_i e _; exact absurd (by rw [e]; decide) hk)
    | (rename_i e _ _; exact absurd (by rw [e]; decide) hk)

theorem splitOnP_append_cons {α : Type} (p : α → Bool) (x y : List α) (sep : α)
    (hsep : p sep = true) :
    (x ++ sep :: y).splitOnP p = x.splitOnP p ++ y.splitOnP p := by
  induction x with
  | nil => simp [hsep]
  | cons c cs ih =>
    rw [List.cons_append, List.splitOnP_cons, List.splitOnP_cons, ih]
    by_cases hc : p c = true
    · rw [if_pos hc, if_pos hc, List.cons_append]
    · rw [if_neg hc, if_neg hc]
      cases hs : cs.splitOnP p with
      | nil => exact absurd hs (List.splitOnP_ne_nil p cs)
      | cons l ls => rfl

/-- The pieces of a string with a comma in it are the pieces before the comma
followed by the pieces after it. -/
theorem commaPieces_append_comma (x y : List Char) :
    commaPieces (x ++ ',' :: y) = commaPieces x ++ commaPieces y := by
  unfold commaPieces List.splitOn
  rw [splitOnP_append_cons (fun c => c == ',') x y ',' (by decide), List.filter_append]

theorem commaPieces_nil : commaPieces [] = [] := rfl

/-- The C string at the start of `x ++ y`, for `x` without NUL. -/
theorem cstr_append (x y : List Char) (hx : NUL ∉ x) : cstr (x ++ y) = x ++ cstr y := by
  unfold cstr
  exact List.takeWhile_append_of_pos (fun c hc => by
    have : c ≠ NUL := fun e => hx (e ▸ hc)
    simpa using this)

theorem cstr_comma (y : List Char) : cstr (',' :: y) = ',' :: cstr y :=
  cstr_append [','] y (by decide)

theorem cstr_of_no_nul (x : List Char) (hx : NUL ∉ x) : cstr x = x := by
  have := cstr_append x [] hx
  rw [List.append_nil] at this
  rw [this]
  exact List.append_nil x

theorem strlen_append (x y : List Char) (hx : NUL ∉ x) :
    strlen (x ++ y) = x.length + strlen y := by
  unfold strlen
  rw [cstr_append x y hx, List.length_append]

theorem strlen_comma (y : List Char) : strlen (',' :: y) = strlen y + 1 := by
  unfold strlen
  rw [cstr_comma, List.length_cons]

/-- The arguments of a string with a comma after a part without NUL. -/
theorem argList_append_comma (x y : List Char) (hx : NUL ∉ x) :
    argList (x ++ ',' :: y) = commaPieces x ++ argList y := by
  rw [argList_eq_commaPieces, argList_eq_commaPieces, cstr_append x _ hx, cstr_comma,
    commaPieces_append_comma]

theorem argList_of_no_nul (x : List Char) (hx : NUL ∉ x) : argList x = commaPieces x := by
  rw [argList_eq_commaPieces, cstr_of_no_nul x hx]

/-- A leading comma yields no argument. -/
theorem argList_comma (y : List Char) : argList (',' :: y) = argList y := by
  have := argList_append_comma [] y (by simp)
  rw [List.nil_append] at this
  rw [this, commaPieces_nil, List.nil_append]

/-- The arguments of a string that starts with a token and a comma. -/
theorem argList_token_comma (u y : List Char) (hcomma : ',' ∉ u) (hnul : NUL ∉ u)
    (hne : u ≠ []) : argList (u ++ ',' :: y) = u :: argList y := by
  rw [argList_append_comma u y hnul,
    commaPieces_single u (fun c hc e => hcomma (e ▸ hc)) hne]
  rfl

/-- The message and the settings that the loop body leaves hang on the text of
the token and the settings of the object only. -/
theorem processArg_settings (n : List Char) (v : Option (List Char)) (p q : Nat)
    (a a' : Arguments) (h : a.settings = a'.settings) :
    (processArg n v p a).1 = (processArg n v q a').1 ∧
      (processArg n v p a).2.settings = (processArg n v q a').2.settings := by
  have hf : ∀ (x x' : Arguments), x.settings = x'.settings ↔
      (x._action = x'._action ∧ x._mode = x'._mode ∧ x._event_type = x'._event_type ∧
        x._counter = x'._counter ∧ x._dump_collapsed = x'._dump_collapsed ∧
        x._dump_summary = x'._dump_summary ∧ x._dump_traces = x'._dump_traces ∧
        x._dump_flat = x'._dump_flat ∧ x._interval = x'._interval ∧
        x._framebuf = x'._framebuf) := by
    intro x x'
    simp [Arguments.settings]
  obtain ⟨h1, h2, h3, h4, h5, h6, h7, h8, h9, h10⟩ := (hf a a').mp h
  apply processArg_cases n v (fun f => (f p a).1 = (f q a').1 ∧
    (f p a).2.settings = (f q a').2.settings)
  all_goals intros
  all_goals refine ⟨rfl, (hf _ _).mpr ?_⟩
  all_goals exact ⟨by first | rfl | exact h1, by first | rfl | exact h2,
    by first | rfl | exact h3, by first | rfl | exact h4, by first | rfl | exact h5,
    by first | rfl | exact h6, by first | rfl | exact h7, by first | rfl | exact h8,
    by first | rfl | exact h9, by first | rfl | exact h10⟩

/-- The message and the settings that a list of tokens leaves hang on the
texts of the tokens and the settings of the object only. -/
theorem applyArgs_settings (ts ts' : List Token) (a a' : Arguments)
    (ht : ts.map Token.text = ts'.map Token.text) (h : a.settings = a'.settings) :
    (applyArgs ts a).1 = (applyArgs ts' a').1 ∧
      (applyArgs ts a).2.settings = (applyArgs ts' a').2.settings := by
  induction ts generalizing ts' a a' with
  | nil =>
    cases ts' with
    | nil => exact ⟨rfl, h⟩
    | cons t' ts' => simp at ht
  | cons t ts ih =>
    cases ts' with
    | nil => simp at ht
    | cons t' ts' =>
      rw [List.map_cons, List.map_cons] at ht
      obtain ⟨htt, hrest⟩ := List.cons.inj ht
      rw [applyArgs_cons, applyArgs_cons]
      have hs := processArg_settings (argName t.text) (argValue t.text) t.valueAt t'.valueAt
        a a' h
      have e : processToken t' a' =
          processArg (argName t.text) (argValue t.text) t'.valueAt a' := by
        unfold processToken
        rw [htt]
      rw [e]
      change (processToken t a).1 = _ ∧ (processToken t a).2.settings = _ at hs
      rcases hp : processToken t a with ⟨m, b⟩
      rcases hp' : processArg (argName t.text) (argValue t.text) t'.valueAt a' with ⟨m', b'⟩
      rw [hp, hp'] at hs
      obtain ⟨hm, hb⟩ := hs
      dsimp only at hm hb
      subst hm
      cases m with
      | some msg => exact ⟨rfl, hb⟩
      | none => exact ih ts' b b' hrest hb

/-- Rewriting `folded` to `collapsed` in some tokens of a list changes neither
the message nor the settings that the loop leaves. -/
theorem applyArgs_foldedRenamed (ts ts' : List Token) (a a' : Arguments)
    (hr : List.Forall₂ (fun t t' => FoldedRenamed t.text t'.text) ts ts')
    (h : a.settings = a'.settings) :
    (applyArgs ts a).1 = (applyArgs ts' a').1 ∧
      (applyArgs ts a).2.settings = (applyArgs ts' a').2.settings := by
  induction hr generalizing a a' with
  | nil => exact ⟨rfl, h⟩
  | @cons t t' l l' ht _ ih =>
    rw [applyArgs_cons, applyArgs_cons]
    have hs := processArg_settings (argName t.text) (argValue t.text) t.valueAt t'.valueAt
      a a' h
    have e : processToken t' a' =
        processArg (argName t.text) (argValue t.text) t'.valueAt a' := by
      unfold processToken
      rw [processArg_foldedRenamed _ _ ht]
    rw [e]
    change (processToken t a).1 = _ ∧ (processToken t a).2.settings = _ at hs
    rcases hp : processToken t a with ⟨m, b⟩
    rcases hp' : processArg (argName t.text) (argValue t.text) t'.valueAt a' with ⟨m', b'⟩
    rw [hp, hp'] at hs
    obtain ⟨hm, hb⟩ := hs
    dsimp only at hm hb
    subst hm
    cases m with
    | some msg => exact ⟨rfl, hb⟩
    | none => exact ih b b' hb

/-- An unrecognised token can be taken out of a list of tokens without
changing what the loop does. -/
theorem applyArgs_remove (pre post : List Token) (u : Token) (a : Arguments)
    (hu : unrecognised (argName u.text)) :
    applyArgs (pre ++ u :: post) a = applyArgs (pre ++ post) a := by
  induction pre generalizing a with
  | nil =>
    rw [List.nil_append, List.nil_append, applyArgs_cons]
    unfold processToken
    rw [processArg_unrecognised _ _ hu]
  | cons t pre ih =>
    rw [List.cons_append, List.cons_append, applyArgs_cons, applyArgs_cons]
    rcases processToken t a with ⟨m, a'⟩
    cases m with
    | some msg => rfl
    | none => exact ih a'

/-- Two lists of tokens whose texts differ by an unrecognised token, put in
at any place, leave the same message and the same settings. -/
theorem applyArgs_insert (ts ts' : List Token) (pre post : List (List Char)) (u : List Char)
    (a : Arguments) (hu : unrecognised (argName u))
    (hts : ts.map Token.text = pre ++ post) (hts' : ts'.map Token.text = pre ++ u :: post) :
    (applyArgs ts a).1 = (applyArgs ts' a).1 ∧
      (applyArgs ts a).2.settings = (applyArgs ts' a).2.settings := by
  obtain ⟨pre', u', post', hsplit, hpre', hu', hpost'⟩ := split_of_text ts' pre post u hts'
  subst hsplit
  rw [applyArgs_remove pre' post' u' a (by rw [hu']; exact hu)]
  apply applyArgs_settings ts (pre' ++ post') a a _ rfl
  rw [hts, List.map_append, hpre', hpost']

/-- Two argument strings below the length limit whose tokens leave the same
message and settings give the same settings. -/
theorem sameSettings_of_applyArgs (bufSize : Nat) (args args' : List Char) (a : Arguments)
    (hlen : strlen args < bufSize) (hlen' : strlen args' < bufSize)
    (h : (applyArgs (argTokens args) a).1 = (applyArgs (argTokens args') a).1 ∧
      (applyArgs (argTokens args) a).2.settings = (applyArgs (argTokens args') a).2.settings) :
    SameSettings bufSize args args' a := by
  unfold SameSettings
  rw [(parse_eq_applyArgs bufSize args a hlen).1, (parse_eq_applyArgs bufSize args' a hlen').1,
    parse_settings bufSize args a hlen, parse_settings bufSize args' a hlen']
  exact h

/-- What `strtok` returns holds no NUL when the scanned string holds none, and
a token that no delimiter ends is the last of the string. -/
theorem strtok_facts (s : List Char) (t : StrtokResult) (h : strtok s = some t) :
    (NUL ∉ s → NUL ∉ t.token ∧ NUL ∉ t.rest) ∧ (t.delimited = false → t.rest = []) := by
  unfold strtok at h
  by_cases hs1 : s.dropWhile (fun c => c == ',') = []
  · simp only [hs1, if_true] at h
    exact absurd h (by simp)
  · simp only [hs1, if_false, Option.some.injEq] at h
    subst h
    dsimp only
    constructor
    · intro hnul
      have h1 : NUL ∉ s.dropWhile (fun c => c == ',') :=
        fun hm => hnul ((List.dropWhile_sublist _).subset hm)
      constructor
      · exact fun hm => h1 ((List.takeWhile_sublist _).subset hm)
      · exact fun hm => h1 ((List.dropWhile_sublist _).subset
          ((List.drop_sublist 1 _).subset hm))
    · intro hd
      cases hx : List.dropWhile (fun c => c != ',') (s.dropWhile (fun c => c == ',')) with
      | nil => rfl
      | cons x r => rw [hx] at hd; simp at hd

/-- Overwriting the `=` of a token with NUL keeps its length. -/
theorem argStored_length (tok : List Char) : (argStored tok).length = tok.length := by
  unfold argStored argName
  have hsplit := List.takeWhile_append_dropWhile (fun c => c != '=') tok
  cases hd : tok.dropWhile (fun c => c != '=') with
  | nil => rfl
  | cons x v =>
    dsimp only
    rw [hd] at hsplit
    conv_rhs => rw [← hsplit]
    simp

/-- The buffer holds a token with a value as its name, a NUL and the value,
and the value holds no NUL when the token holds none. -/
theorem argStored_of_value (tok v : List Char) (hv : argValue tok = some v) :
    argStored tok = argName tok ++ NUL :: v ∧ (NUL ∉ tok → NUL ∉ v) := by
  unfold argValue at hv
  unfold argStored
  cases hd : tok.dropWhile (fun c => c != '=') with
  | nil => rw [hd] at hv; simp at hv
  | cons x w =>
    rw [hd] at hv
    simp only [Option.some.injEq] at hv
    subst hv
    refine ⟨rfl, fun hnul hm => hnul ?_⟩
    have hsub := (List.dropWhile_sublist (fun c => c != '=') (l := tok)).subset
    rw [hd] at hsub
    exact hsub (List.mem_cons_of_mem x hm)

/-- The loop leaves an empty string empty. -/
theorem parseLoop_nil (fuel pos : Nat) (a : Arguments) :
    (parseLoop fuel pos [] a).stored = [] := by
  cases fuel with
  | zero => rfl
  | succ k => rfl

/-- The C string read at a place where the buffer holds a NUL-free text
followed by a NUL. -/
theorem cstr_text_nul (v z : List Char) (hv : NUL ∉ v) : cstr (v ++ NUL :: z) = v := by
  rw [cstr_append v _ hv]
  have : cstr (NUL :: z) = [] := by
    unfold cstr
    rw [List.takeWhile_cons_of_neg (by simp)]
  rw [this, List.append_nil]

/-- Where the loop leaves `_file`. When the tokens it visits include an
accepted `file` argument, `_file` points into the part of the buffer the loop
was started on, behind its first character, at a place where the value of the
last accepted one is stored as a C string; otherwise `_file` is the pointer the
object had. -/
theorem parseLoop_file (fuel pos : Nat) (rest : List Char) (a : Arguments)
    (tail : List Char) (hnul : NUL ∉ rest) :
    (∀ v, acceptedFile (tokens fuel rest) = some v →
      ∃ p, (parseLoop fuel pos rest a).args._file = some p ∧ pos < p ∧
        cstr (((parseLoop fuel pos rest a).stored ++ NUL :: tail).drop (p - pos)) = v) ∧
    (acceptedFile (tokens fuel rest) = none →
      (parseLoop fuel pos rest a).args._file = a._file) := by
  induction fuel generalizing pos rest a with
  | zero =>
    refine ⟨fun v hv => ?_, fun _ => rfl⟩
    simp [tokens, acceptedFile] at hv
  | succ k ih =>
    unfold parseLoop tokens
    cases hs : strtok rest with
    | none =>
      refine ⟨fun v hv => ?_, fun _ => rfl⟩
      simp [acceptedFile] at hv
    | some t =>
      dsimp only
      obtain ⟨hnuls, hlast⟩ := strtok_facts rest t hs
      obtain ⟨hntok, hnrest⟩ := hnuls hnul
      have hm := processArg_msg t.token
        (Token.valueAt ⟨pos + t.skipped.length, t.token⟩) a
      rcases hp : processArg (argName t.token) (argValue t.token)
        (Token.valueAt ⟨pos + t.skipped.length, t.token⟩) a with ⟨m, a'⟩
      rw [hp] at hm
      dsimp only at hm
      cases m with
      | some msg =>
        dsimp only
        have hacc : acceptedFile (t.token :: tokens k t.rest) = none := by
          unfold acceptedFile
          rw [if_pos (by rw [← hm]; simp)]
        rw [hacc]
        refine ⟨fun v hv => by simp at hv, fun _ => ?_⟩
        have := processArg_file_of_error (argName t.token) (argValue t.token)
          (Token.valueAt ⟨pos + t.skipped.length, t.token⟩) a (by rw [hp]; simp)
        rw [hp] at this
        exact this
      | none =>
        dsimp only
        obtain ⟨ih1, ih2⟩ := ih (pos + t.consumed) t.rest a' hnrest
        have hwlen : (t.skipped ++ argStored t.token ++
            (if t.delimited then [NUL] else [])).length = t.consumed := by
          unfold StrtokResult.consumed
          rw [List.length_append, List.length_append, argStored_length]
          cases t.delimited <;> rfl
        have hacc : acceptedFile (t.token :: tokens k t.rest) =
            match acceptedFile (tokens k t.rest) with
            | some v => some v
            | none => if argName t.token = "file".toList then argValue t.token else none := by
          conv_lhs => unfold acceptedFile
          rw [if_neg (by rw [← hm]; simp)]
        rw [hacc]
        cases hrest : acceptedFile (tokens k t.rest) with
        | some w =>
          dsimp only
          refine ⟨fun v hv => ?_, fun h => by simp at h⟩
          simp only [Option.some.injEq] at hv
          subst hv
          obtain ⟨p, hp1, hp2, hp3⟩ := ih1 w hrest
          refine ⟨p, hp1, by omega, ?_⟩
          have e : p - pos = (t.skipped ++ argStored t.token ++
              (if t.delimited then [NUL] else [])).length + (p - (pos + t.consumed)) := by
            rw [hwlen]
            omega
          rw [e, List.append_assoc _ _ (NUL :: tail), List.drop_append]
          exact hp3
        | none =>
          dsimp only
          have hfile := ih2 hrest
          by_cases hn : argName t.token = "file".toList
          · rw [if_pos hn]
            have hset := processArg_file_set t.token
              (Token.valueAt ⟨pos + t.skipped.length, t.token⟩) a hn (by rw [hp])
            rw [hp] at hset
            dsimp only at hset
            refine ⟨fun v hv => ?_, fun h => ?_⟩
            · obtain ⟨hst, hnv⟩ := argStored_of_value t.token v hv
              refine ⟨_, hfile.trans hset, ?_, ?_⟩
              · unfold Token.valueAt
                dsimp only
                omega
              · have e : Token.valueAt ⟨pos + t.skipped.length, t.token⟩ - pos =
                    (t.skipped ++ (argName t.token ++ [NUL])).length + 0 := by
                  unfold Token.valueAt
                  dsimp only
                  rw [List.length_append, List.length_append, List.length_singleton]
                  omega
                have e2 : t.skipped ++ argStored t.token ++
                    (if t.delimited then [NUL] else []) ++
                    (parseLoop k (pos + t.consumed) t.rest a').stored ++ NUL :: tail =
                    (t.skipped ++ (argName t.token ++ [NUL])) ++ (v ++ NUL ::
                      (if t.delimited then
                        (parseLoop k (pos + t.consumed) t.rest a').stored ++ NUL :: tail
                      else tail)) := by
                  rw [hst]
                  cases hdel : t.delimited with
                  | true => simp
                  | false =>
                    rw [hlast hdel, parseLoop_nil]
                    simp
                rw [e, e2, List.drop_append, List.drop_zero]
                exact cstr_text_nul v _ (hnv hntok)
            · have herr := argError_file t.token hn
              rw [h] at herr
              rw [← hm] at herr
              simp at herr
          · rw [if_neg hn]
            refine ⟨fun v hv => by simp at hv, fun _ => ?_⟩
            have hkeep := processArg_file_keep t.token
              (Token.valueAt ⟨pos + t.skipped.length, t.token⟩) a hn
            rw [hp] at hkeep
            exact hfile.trans hkeep

/-- The file name after a call below the length limit: the value of the last
`file` argument the loop has accepted, when there is one, and then `_file` does
not point to the first character of `_buf`; otherwise `_file` is the pointer
the object had. -/
theorem parse_file (bufSize : Nat) (args : List Char) (a : Arguments)
    (hlen : strlen args < bufSize) :
    (∀ v, acceptedFile (argList args) = some v →
      (parse bufSize args a).2.fileName = some v ∧
      (parse bufSize args a).2._file ≠ some 0) ∧
    (acceptedFile (argList args) = none → (parse bufSize args a).2._file = a._file) := by
  have hnul : NUL ∉ cstr args := by
    intro hm
    have := List.mem_takeWhile_imp hm
    simp at this
  obtain ⟨h1, h2⟩ := parseLoop_file (strlen args + 1) 0 (cstr args) a
    (a._buf.drop (strlen args + 1)) hnul
  unfold parse
  rw [if_neg (not_le.mpr hlen)]
  dsimp only
  constructor
  · intro v hv
    obtain ⟨p, hp1, hp2, hp3⟩ := h1 v hv
    unfold Arguments.fileName
    dsimp only
    rw [hp1, Option.map_some']
    rw [Nat.sub_zero] at hp3
    rw [hp3]
    refine ⟨rfl, fun h0 => ?_⟩
    rw [Option.some.injEq] at h0
    omega
  · intro hv
    exact h2 hv

/-- An unrecognised token has no message. -/
theorem argError_unrecognised (u : List Char) (hu : unrecognised (argName u)) :
    argError u = none := by
  unfold argError
  rw [processArg_unrecognised _ _ hu]

theorem acceptedFile_cons (t : List Char) (ts : List (List Char)) :
    acceptedFile (t :: ts) =
      if argError t ≠ none then none
      else
        match acceptedFile ts with
        | some v => some v
        | none => if argName t = "file".toList then argValue t else none := by
  conv_lhs => unfold acceptedFile

/-- Rewriting `folded` to `collapsed` in some tokens does not change the file
argument that the loop accepts last. -/
theorem acceptedFile_foldedRenamed (ts ts' : List (List Char))
    (h : List.Forall₂ FoldedRenamed ts ts') : acceptedFile ts' = acceptedFile ts := by
  induction h with
  | nil => rfl
  | @cons t t' l l' ht _ ih =>
    rw [acceptedFile_cons, acceptedFile_cons, ih]
    have he : argError t' = argError t := by
      unfold argError
      rw [processArg_foldedRenamed t t' ht]
    have hf : (if argName t' = "file".toList then argValue t' else none) =
        (if argName t = "file".toList then argValue t else none) := by
      rcases ht with rfl | ⟨hn, rfl⟩
      · rfl
      · rcases folded_token_cases t hn with rfl | ⟨v, rfl⟩
        · rfl
        · have e1 : argName ("collapsed".toList ++ ("folded=".toList ++ v).drop 6) =
              "collapsed".toList := rfl
          have e3 : argName ("folded=".toList ++ v) = "folded".toList := rfl
          rw [e1, e3, if_neg (by decide), if_neg (by decide)]
    rw [he, hf]

/-- An unrecognised token can be taken out of a list of tokens without
changing the file argument that the loop accepts last. -/
theorem acceptedFile_remove (pre post : List (List Char)) (u : List Char)
    (hu : unrecognised (argName u)) :
    acceptedFile (pre ++ u :: post) = acceptedFile (pre ++ post) := by
  induction pre with
  | nil =>
    rw [List.nil_append, List.nil_append, acceptedFile_cons, argError_unrecognised u hu,
      if_neg (by simp)]
    have hn : argName u ≠ "file".toList := fun e => hu.1 (by rw [e]; decide)
    rw [if_neg hn]
    cases acceptedFile post <;> rfl
  | cons t pre ih =>
    rw [List.cons_append, List.cons_append, acceptedFile_cons, acceptedFile_cons, ih]

/-- Without a `file` argument the loop accepts none. -/
theorem acceptedFile_none (ts : List (List Char))
    (h : ∀ u ∈ ts, argName u ≠ "file".toList) : acceptedFile ts = none := by
  induction ts with
  | nil => rfl
  | cons t ts ih =>
    rw [acceptedFile_cons, ih (fun u hu => h u (List.mem_cons_of_mem t hu)),
      if_neg (h t (List.mem_cons_self t ts))]
    split_ifs <;> rfl

/-- When the loop returns no message, the file argument it accepts last is the
last `file` argument of the list. -/
theorem acceptedFile_last (pre post : List (List Char)) (t : List Char)
    (hok : ∀ x ∈ pre ++ t :: post, argError x = none)
    (hn : argName t = "file".toList) (hpost : ∀ u ∈ post, argName u ≠ "file".toList) :
    acceptedFile (pre ++ t :: post) = argValue t ∧ argValue t ≠ none := by
  have ht : argError t = none := hok t (by simp)
  have hv : argValue t ≠ none := by
    intro hv
    rw [argError_file t hn, hv] at ht
    simp at ht
  refine ⟨?_, hv⟩
  induction pre with
  | nil =>
    rw [List.nil_append, acceptedFile_cons, ht, if_neg (by simp), acceptedFile_none post hpost,
      if_pos hn]
  | cons u pre ih =>
    have hu : argError u = none := hok u (by simp)
    rw [List.cons_append, acceptedFile_cons, hu, if_neg (by simp),
      ih (fun x hx => hok x (by rw [List.cons_append]; exact List.mem_cons_of_mem u hx))]
    cases hval : argValue t with
    | none => exact absurd hval hv
    | some v => rfl

/-- A message-free list of tokens with a `file` argument has an accepted one. -/
theorem acceptedFile_of_mem (ts : List (List Char)) (hok : ∀ x ∈ ts, argError x = none)
    (h : ∃ t ∈ ts, argName t = "file".toList) : acceptedFile ts ≠ none := by
  obtain ⟨pre, t, post, hsplit, hn, hpost⟩ :=
    exists_last_with (fun t => argName t = "file".toList) ts h
  subst hsplit
  obtain ⟨h1, h2⟩ := acceptedFile_last pre post t hok hn hpost
  rw [h1]
  exact h2

/-- The file name after a call below the length limit that decides it: the
value of the `file` argument that the loop accepts last. -/
theorem parse_fileName (bufSize : Nat) (args : List Char) (a : Arguments)
    (hlen : strlen args < bufSize) (hd : FileDecided args a) :
    (parse bufSize args a).2.fileName = acceptedFile (argList args) := by
  obtain ⟨h1, h2⟩ := parse_file bufSize args a hlen
  cases hacc : acceptedFile (argList args) with
  | some v => exact (h1 v hacc).1
  | none =>
    rcases hd with hd | hd
    · unfold Arguments.fileName
      rw [h2 hacc, hd]
      rfl
    · exact absurd hacc hd

/-- Two argument strings below the length limit whose tokens leave the same
message and settings, and on which the loop accepts the same file argument
last, have the same result. -/
theorem sameResult_of (bufSize : Nat) (args args' : List Char) (a : Arguments)
    (hlen : strlen args < bufSize) (hlen' : strlen args' < bufSize)
    (h : (applyArgs (argTokens args) a).1 = (applyArgs (argTokens args') a).1 ∧
      (applyArgs (argTokens args) a).2.settings = (applyArgs (argTokens args') a).2.settings)
    (hacc : acceptedFile (argList args) = acceptedFile (argList args')) :
    SameResult bufSize args args' a := by
  have hs := sameSettings_of_applyArgs bufSize args args' a hlen hlen' h
  refine ⟨hs, fun hd => ⟨hs, ?_⟩⟩
  have hd' : FileDecided args' a := by
    unfold FileDecided at hd ⊢
    rw [← hacc]
    exact hd
  rw [parse_fileName bufSize args a hlen hd, parse_fileName bufSize args' a hlen' hd', hacc]

/-- The empty string: the call returns `NULL`, changes no setting and not the
pointer `_file`, and the file name is as before unless `_file` pointed to the
first character of `_buf`, which now holds the NUL of the empty string. -/
theorem parse_empty (bufSize : Nat) (a : Arguments) (hpos : 0 < bufSize) :
    (parse bufSize [] a).1 = none ∧ (parse bufSize [] a).2.settings = a.settings ∧
      (parse bufSize [] a).2._file = a._file ∧
      (a._file ≠ some 0 → (parse bufSize [] a).2.fileName = a.fileName) := by
  have hlen : strlen [] < bufSize := hpos
  have hp : parse bufSize [] a = (none, { a with _buf := NUL :: a._buf.drop 1 }) := by
    unfold parse
    rw [if_neg (not_le.mpr hlen)]
    rfl
  rw [hp]
  refine ⟨rfl, rfl, rfl, fun h0 => ?_⟩
  unfold Arguments.fileName
  dsimp only
  cases hf : a._file with
  | none => rfl
  | some p =>
    cases p with
    | zero => exact absurd hf h0
    | succ q =>
      rw [Option.map_some', Option.map_some', List.drop_succ_cons, List.drop_drop]
      rw [Nat.add_comm]

/-- A call never points `_file` to the first character of `_buf`: when `_file`
points there after the call, it did so before. -/
theorem parse_file_ne_start (bufSize : Nat) (args : List Char) (a : Arguments)
    (h : (parse bufSize args a).2._file = some 0) : a._file = some 0 := by
  by_cases hlen : bufSize ≤ strlen args
  · rw [parse_too_long bufSize args a hlen] at h
    exact h
  · obtain ⟨h1, h2⟩ := parse_file bufSize args a (not_le.mp hlen)
    cases hacc : acceptedFile (argList args) with
    | some v => exact absurd h (h1 v hacc).2
    | none => rw [← h2 hacc]; exact h

end ParseLemmas

/-! ## C1: what a failed parse leaves behind -/

/-- C1, counterexamples: on `start,interval=0` the call returns a message after
`_action` has been set to start, and on `interval=0` it returns a message after
`_interval` has been overwritten with 0. -/
theorem parse_failure_keeps_changes :
    (parse 64 "start,interval=0".toList sampleArguments).1 = some "interval must be > 0" ∧
    sampleArguments._action = .other 0 ∧
    (parse 64 "start,interval=0".toList sampleArguments).2._action = .ACTION_START ∧
    (parse 64 "interval=0".toList sampleArguments).1 = some "interval must be > 0" ∧
    sampleArguments._interval = 1000000 ∧
    (parse 64 "interval=0".toList sampleArguments).2._interval = 0 := by
  decide

/-- C1, amended: a call that returns "Argument list too long" leaves the object
unchanged. A call that returns any other message has applied the arguments
before the first offending one, which leave an object `b`, and then the
offending argument `t`, and the object after the call is, in every data member
other than the buffer `_buf`, exactly this: with "unknown event type", `b` with
the mode set to CPU; with "interval must be > 0", `b` itself when `t` has no
value and otherwise `b` with `_interval` overwritten by the rejected value
`atoi w`, which is at most 0; with "framebuf must be > 0", the same for
`_framebuf`; with "file must not be empty", `b` itself. The pointer `_file` is
the one the arguments before `t` left. -/
theorem parse_failure_effect (bufSize : Nat) (args : List Char) (a : Arguments)
    (msg : String) (h : (parse bufSize args a).1 = some msg) :
    (bufSize ≤ strlen args ∧ msg = "Argument list too long" ∧
      (parse bufSize args a).2 = a) ∨
    (strlen args < bufSize ∧
      ∃ pre t post b, argTokens args = pre ++ t :: post ∧ applyArgs pre a = (none, b) ∧
        argError t.text = some msg ∧
        ((msg = "unknown event type" ∧
          (parse bufSize args a).2 =
            { b with _mode := .MODE_CPU, _buf := (parse bufSize args a).2._buf }) ∨
        (msg = "interval must be > 0" ∧ argName t.text = "interval".toList ∧
          ((argValue t.text = none ∧
            (parse bufSize args a).2 = { b with _buf := (parse bufSize args a).2._buf }) ∨
          ∃ w, argValue t.text = some w ∧ atoi w ≤ 0 ∧
            (parse bufSize args a).2 =
              { b with _interval := atoi w, _buf := (parse bufSize args a).2._buf })) ∨
        (msg = "framebuf must be > 0" ∧ argName t.text = "framebuf".toList ∧
          ((argValue t.text = none ∧
            (parse bufSize args a).2 = { b with _buf := (parse bufSize args a).2._buf }) ∨
          ∃ w, argValue t.text = some w ∧ atoi w ≤ 0 ∧
            (parse bufSize args a).2 =
              { b with _framebuf := atoi w, _buf := (parse bufSize args a).2._buf })) ∨
        (msg = "file must not be empty" ∧ argName t.text = "file".toList ∧
          (parse bufSize args a).2 = { b with _buf := (parse bufSize args a).2._buf }))) := by
  by_cases hlen : bufSize ≤ strlen args
  · left
    have hp := parse_too_long bufSize args a hlen
    rw [hp] at h
    refine ⟨hlen, ?_, by rw [hp]⟩
    exact (Option.some.inj h).symm
  · right
    have hlt : strlen args < bufSize := not_le.mp hlen
    obtain ⟨hmsg, hargs⟩ := parse_eq_applyArgs bufSize args a hlt
    rw [hmsg] at h
    obtain ⟨pre, t, post, hsplit, hpre, hterr, heq⟩ :=
      applyArgs_error_split (argTokens args) a msg h
    have hm : (processArg (argName t.text) (argValue t.text) t.valueAt
        (applyArgs pre a).2).1 = some msg := by
      change (processToken t (applyArgs pre a).2).1 = some msg
      rw [← heq]; exact h
    have heff := processArg_error_exact _ _ _ _ msg hm
    change _ ∨ _ ∨ _ ∨ _ at heff
    have hres : ∀ c : Arguments,
        (processArg (argName t.text) (argValue t.text) t.valueAt (applyArgs pre a).2).2 = c →
        (parse bufSize args a).2 = { c with _buf := (parse bufSize args a).2._buf } := by
      intro c hc
      rw [← hc]
      change _ = { (processToken t (applyArgs pre a).2).2 with
        _buf := (parse bufSize args a).2._buf }
      rw [← heq]
      exact hargs
    refine ⟨hlt, pre, t, post, (applyArgs pre a).2, hsplit, Prod.ext hpre rfl, hterr, ?_⟩
    rcases heff with ⟨h1, h2⟩ | ⟨h1, hn, h2⟩ | ⟨h1, hn, h2⟩ | ⟨h1, hn, h2⟩
    · exact Or.inl ⟨h1, hres _ h2⟩
    · refine Or.inr (Or.inl ⟨h1, hn, ?_⟩)
      rcases h2 with ⟨hv, h3⟩ | ⟨w, hv, hle, h3⟩
      · exact Or.inl ⟨hv, hres _ h3⟩
      · exact Or.inr ⟨w, hv, hle, hres _ h3⟩
    · refine Or.inr (Or.inr (Or.inl ⟨h1, hn, ?_⟩))
      rcases h2 with ⟨hv, h3⟩ | ⟨w, hv, hle, h3⟩
      · exact Or.inl ⟨hv, hres _ h3⟩
      · exact Or.inr ⟨w, hv, hle, hres _ h3⟩
    · exact Or.inr (Or.inr (Or.inr ⟨h1, hn, hres _ h2⟩))

/-- C1, amended, on `start,interval=0`: the call returns its message with the
action that `start` has set and with the rejected interval 0 stored. -/
theorem parse_failure_effect_witness :
    (parse 64 "start,interval=0".toList sampleArguments).1 = some "interval must be > 0" ∧
    ∃ pre t post b, argTokens "start,interval=0".toList = pre ++ t :: post ∧
      applyArgs pre sampleArguments = (none, b) ∧
      argError t.text = some "interval must be > 0" ∧
      ∃ w, argValue t.text = some w ∧ atoi w ≤ 0 ∧
        (parse 64 "start,interval=0".toList sampleArguments).2 =
          { b with
            _interval := atoi w
            _buf := (parse 64 "start,interval=0".toList sampleArguments).2._buf } := by
  refine ⟨by decide, ?_⟩
  rcases parse_failure_effect 64 "start,interval=0".toList sampleArguments
    "interval must be > 0" (by decide) with h | ⟨-, pre, t, post, b, h1, h2, h3, h4⟩
  · exact absurd h.1 (by decide)
  · refine ⟨pre, t, post, b, h1, h2, h3, ?_⟩
    rcases h4 with ⟨hm, -⟩ | ⟨-, -, h5⟩ | ⟨hm, -⟩ | ⟨hm, -⟩
    · exact absurd hm (by decide)
    · rcases h5 with ⟨hv, -⟩ | h5
      · exfalso
        have hts : argTokens "start,interval=0".toList =
            [⟨0, "start".toList⟩, ⟨6, "interval=0".toList⟩] := by decide
        rw [hts] at h1
        rcases pre with _ | ⟨p1, _ | ⟨p2, pre⟩⟩
        · simp only [List.nil_append, List.cons.injEq] at h1
          obtain ⟨rfl, -⟩ := h1
          revert h3
          decide
        · simp only [List.cons_append, List.nil_append, List.cons.injEq] at h1
          obtain ⟨-, rfl, -⟩ := h1
          revert hv
          decide
        · simp at h1
      · exact h5
    · exact absurd hm (by decide)
    · exact absurd hm (by decide)

/-! ## C2: `interval` and `framebuf` must be positive -/

/-- C2: below the length limit, an argument string that contains an `interval`
or `framebuf` argument whose value is missing or is read by `atoi` as an
integer that is at most 0 makes `parse` return a message; when no earlier
argument is itself rejected, the message is "interval must be > 0" for
`interval` and "framebuf must be > 0" for `framebuf`. -/
theorem parse_rejects_nonpositive (bufSize : Nat) (args : List Char) (a : Arguments)
    (t : List Char) (hlen : strlen args < bufSize) (ht : t ∈ argList args)
    (hname : argName t = "interval".toList ∨ argName t = "framebuf".toList)
    (hval : argValue t = none ∨ ∃ v, argValue t = some v ∧ atoi v ≤ 0) :
    (∃ msg, (parse bufSize args a).1 = some msg) ∧
    ∀ pre post, argList args = pre ++ t :: post → (∀ p ∈ pre, argError p = none) →
      (argName t = "interval".toList →
        (parse bufSize args a).1 = some "interval must be > 0") ∧
      (argName t = "framebuf".toList →
        (parse bufSize args a).1 = some "framebuf must be > 0") := by
  have hmsg := parse_msg bufSize args a hlen
  have hi : argName t = "interval".toList → argError t = some "interval must be > 0" := by
    intro hn
    rw [argError_interval t hn]
    rcases hval with h | ⟨v, hv, hle⟩
    · rw [h]
    · rw [hv]; exact if_pos hle
  have hf : argName t = "framebuf".toList → argError t = some "framebuf must be > 0" := by
    intro hn
    rw [argError_framebuf t hn]
    rcases hval with h | ⟨v, hv, hle⟩
    · rw [h]
    · rw [hv]; exact if_pos hle
  have hne : argError t ≠ none := by
    rcases hname with hn | hn
    · rw [hi hn]; exact Option.some_ne_none _
    · rw [hf hn]; exact Option.some_ne_none _
  refine ⟨?_, ?_⟩
  · rw [hmsg]
    exact Option.ne_none_iff_exists'.mp (firstError_of_mem _ t ht hne)
  · intro pre post hsplit hpre
    rw [hmsg, hsplit]
    exact ⟨fun hn => firstError_eq pre post t _ hpre (hi hn),
      fun hn => firstError_eq pre post t _ hpre (hf hn)⟩

/-- C2 on `start,interval=0`, whose second argument is `interval=0`. -/
theorem parse_rejects_nonpositive_witness :
    strlen "start,interval=0".toList < 64 ∧
    "interval=0".toList ∈ argList "start,interval=0".toList ∧
    argName "interval=0".toList = "interval".toList ∧
    argValue "interval=0".toList = some "0".toList ∧ atoi "0".toList ≤ 0 ∧
    (∃ msg, (parse 64 "start,interval=0".toList sampleArguments).1 = some msg) ∧
    (parse 64 "start,interval=0".toList sampleArguments).1 = some "interval must be > 0" :=
  have h := parse_rejects_nonpositive 64 "start,interval=0".toList sampleArguments
    "interval=0".toList (by decide) (by decide) (Or.inl (by decide))
    (Or.inr ⟨"0".toList, by decide, by decide⟩)
  ⟨by decide, by decide, by decide, by decide, by decide, h.1,
    (h.2 ["start".toList] [] (by decide) (by decide)).1 (by decide)⟩

/-! ## C3: a successful parse keeps the validated fields positive -/

/-- C3: for every argument string and every object whose `_interval` and
`_framebuf` are positive, a call of `parse` that returns `NULL` leaves both
positive. -/
theorem parse_keeps_positive (bufSize : Nat) (args : List Char) (a : Arguments)
    (hi : 0 < a._interval) (hf : 0 < a._framebuf) (h : (parse bufSize args a).1 = none) :
    0 < (parse bufSize args a).2._interval ∧ 0 < (parse bufSize args a).2._framebuf := by
  by_cases hlen : bufSize ≤ strlen args
  · rw [parse_too_long bufSize args a hlen] at h
    simp at h
  · obtain ⟨hmsg, hargs⟩ := parse_eq_applyArgs bufSize args a (not_le.mp hlen)
    rw [hmsg] at h
    rw [hargs]
    exact applyArgs_keeps_positive (argTokens args) a hi hf h

/-- C3 on a string that sets both fields several times. -/
theorem parse_keeps_positive_witness :
    0 < sampleArguments._interval ∧ 0 < sampleArguments._framebuf ∧
    (parse 64 "framebuf=7,interval=5,start,interval=20,framebuf=3".toList
      sampleArguments).1 = none ∧
    0 < (parse 64 "framebuf=7,interval=5,start,interval=20,framebuf=3".toList
      sampleArguments).2._interval ∧
    0 < (parse 64 "framebuf=7,interval=5,start,interval=20,framebuf=3".toList
      sampleArguments).2._framebuf :=
  have h := parse_keeps_positive 64
    "framebuf=7,interval=5,start,interval=20,framebuf=3".toList sampleArguments
    (by decide) (by decide) (by decide)
  ⟨by decide, by decide, by decide, h.1, h.2⟩

/-! ## Properties of the macOS sampling backend -/

section BackendLemmas

/-- An accepted `start`: the state it leaves. -/
theorem start_of_valid (s : PerfEvents) (interval : Int) (type : EventType)
    (hi : 0 < interval) (ht : type = .EVENT_TYPE_CPU_CLOCK) :
    s.start interval type =
      (true,
        { s with
          _interval := interval
          sigprof := ⟨[], .signalHandler, SA_RESTART ||| SA_SIGINFO⟩
          itimer_prof :=
            ⟨⟨Int.tdiv interval 1000000000, Int.tdiv (Int.tmod interval 1000000000) 1000⟩,
              ⟨Int.tdiv interval 1000000000,
                Int.tdiv (Int.tmod interval 1000000000) 1000⟩⟩ }) := by
  unfold PerfEvents.start
  rw [if_neg (by rintro (h | h); exact absurd hi (not_lt.mpr h); exact h ht)]
  rfl

/-- A rejected `start`: nothing happens. -/
theorem start_of_invalid (s : PerfEvents) (interval : Int) (type : EventType)
    (h : interval ≤ 0 ∨ type ≠ .EVENT_TYPE_CPU_CLOCK) :
    s.start interval type = (false, s) := by
  unfold PerfEvents.start
  rw [if_pos h]

theorem run_stop_cons (s : PerfEvents) (cs : List Call) :
    s.run (.stop :: cs) = s.stop.run cs := rfl

theorem run_start_cons (s : PerfEvents) (j : Int) (u : EventType) (cs : List Call) :
    s.run (.start j u :: cs) = (s.start j u).2.run cs := rfl

/-- Calls none of which is an accepted `start` leave a state with a stopped
timer as it is. -/
theorem run_without_start (s : PerfEvents) (calls : List Call) (last : Option Int)
    (h : s.lastStarted calls last = last) (hz : s.itimer_prof = ⟨⟨0, 0⟩, ⟨0, 0⟩⟩)
    (hl : ∀ i, last = some i → False) : s.run calls = s := by
  induction calls generalizing s with
  | nil => rfl
  | cons c cs ih =>
    have key : ∀ (s' : PerfEvents) (cs' : List Call) (i : Int),
        s'.lastStarted cs' (some i) ≠ none := by
      intro s' cs'
      induction cs' generalizing s' with
      | nil => intro i; simp [PerfEvents.lastStarted]
      | cons d ds ihd =>
        intro i
        cases d with
        | stop => exact ihd _ i
        | start j u =>
          unfold PerfEvents.lastStarted
          split
          · exact ihd _ j
          · exact ihd _ i
    have hnone : last = none := by
      cases last with
      | none => rfl
      | some i => exact (hl i rfl).elim
    subst hnone
    cases c with
    | stop =>
      have hs : s.stop = s := by
        unfold PerfEvents.stop setitimer
        rw [← hz]
      unfold PerfEvents.lastStarted at h
      rw [hs] at h
      rw [run_stop_cons, hs]
      exact ih s h hz
    | start j u =>
      unfold PerfEvents.lastStarted at h
      by_cases hacc : (s.start j u).1 = true
      · rw [if_pos hacc] at h
        exact absurd h (key _ cs j)
      · rw [if_neg hacc] at h
        have hrej : (s.start j u).2 = s := by
          have := (Bool.not_eq_true _).mp hacc
          unfold PerfEvents.start at this ⊢
          split at this
          · rename_i hc; rw [if_pos hc]
          · simp at this
        rw [hrej] at h
        rw [run_start_cons, hrej]
        exact ih s h hz

/-- The facts that tie a backend state to the interval of the last accepted
`start` are kept by every call. -/
theorem run_invariant (s : PerfEvents) (calls : List Call) (last : Option Int)
    (harmed : s.itimer_prof.armed = true → last ≠ none)
    (hlast : ∀ i, last = some i →
      0 < i ∧ s._interval = i ∧ s.sigprof.sa_sigaction = .signalHandler) :
    ((s.run calls).itimer_prof.armed = true → s.lastStarted calls last ≠ none) ∧
    (∀ i, s.lastStarted calls last = some i →
      0 < i ∧ (s.run calls)._interval = i ∧
        (s.run calls).sigprof.sa_sigaction = .signalHandler) := by
  induction calls generalizing s last with
  | nil => exact ⟨harmed, hlast⟩
  | cons c cs ih =>
    cases c with
    | stop =>
      rw [run_stop_cons]
      unfold PerfEvents.lastStarted
      exact ih s.stop last (fun h => by simp [PerfEvents.stop, setitimer, Itimerval.armed] at h)
        hlast
    | start j u =>
      rw [run_start_cons]
      unfold PerfEvents.lastStarted
      by_cases hv : j ≤ 0 ∨ u ≠ .EVENT_TYPE_CPU_CLOCK
      · rw [start_of_invalid s j u hv]
        simp only [Bool.false_eq_true, if_false]
        exact ih s last harmed hlast
      · have hj : 0 < j := not_le.mp (fun hle => hv (Or.inl hle))
        have hu : u = .EVENT_TYPE_CPU_CLOCK := by
          by_contra hne
          exact hv (Or.inr hne)
        rw [start_of_valid s j u hj hu]
        simp only [if_true]
        apply ih
        · intro _; simp
        · intro i hi
          have hij : j = i := Option.some.inj hi
          subst hij
          exact ⟨hj, rfl, rfl⟩

/-- Only an argument whose name begins with `cpu` changes `_event_type`. -/
theorem processArg_event_keep (t : List Char) (p : Nat) (a : Arguments)
    (hn : ¬ (argName t).take 3 = "cpu".toList) :
    (processArg (argName t) (argValue t) p a).2._event_type = a._event_type := by
  revert hn
  apply processArg_cases (argName t) (argValue t)
    (fun f => ¬ (argName t).take 3 = "cpu".toList → (f p a).2._event_type = a._event_type)
  all_goals intros
  all_goals first
    | rfl
    | contradiction

/-- The event types that the parser selects by name are not the CPU clock. -/
theorem eventNames_ne_cpu_clock (E : List Char) (ev : EventType)
    (h : (E, ev) ∈ eventNames) : ev ≠ .EVENT_TYPE_CPU_CLOCK := by
  simp only [eventNames, List.mem_cons, Prod.mk.injEq, List.mem_singleton, List.mem_nil_iff,
    or_false] at h
  rcases h with ⟨-, rfl⟩ | ⟨-, rfl⟩ | ⟨-, rfl⟩ | ⟨-, rfl⟩ | ⟨-, rfl⟩ | ⟨-, rfl⟩ <;> decide

/-- The text the entry points return when it has no NUL. -/
theorem NewStringUTF_of_text (x y : List Char) (hx : NUL ∉ x) (hy : NUL ∉ y) :
    NewStringUTF ([] ++ x ++ y) = x ++ y := by
  unfold NewStringUTF
  rw [List.nil_append]
  exact cstr_of_no_nul (x ++ y) (fun h => (List.mem_append.mp h).elim hx hy)

end BackendLemmas

/-! ## C4: when `start` accepts -/

/-- C4: `PerfEvents::start(interval, type)` returns true exactly when
`interval > 0` and `type` is `EVENT_TYPE_CPU_CLOCK`, and a call that returns
false leaves the backend state (stored interval, `SIGPROF` disposition, timer
setting) as it was. -/
theorem start_true_iff (s : PerfEvents) (interval : Int) (type : EventType) :
    ((s.start interval type).1 = true ↔
      0 < interval ∧ type = .EVENT_TYPE_CPU_CLOCK) ∧
    ((s.start interval type).1 = false → (s.start interval type).2 = s) := by
  by_cases h : interval ≤ 0 ∨ type ≠ .EVENT_TYPE_CPU_CLOCK
  · rw [start_of_invalid s interval type h]
    refine ⟨⟨fun hf => by simp at hf, fun hv => ?_⟩, fun _ => rfl⟩
    rcases h with h | h
    · exact absurd hv.1 (not_lt.mpr h)
    · exact absurd hv.2 h
  · have hi : 0 < interval := not_le.mp (fun hle => h (Or.inl hle))
    have ht : type = .EVENT_TYPE_CPU_CLOCK := by
      by_contra hne
      exact h (Or.inr hne)
    rw [start_of_valid s interval type hi ht]
    exact ⟨⟨fun _ => ⟨hi, ht⟩, fun _ => rfl⟩, fun hf => by simp at hf⟩

/-! ## C5: an accepted `start` and the armed timer -/

/-- C5, what the code does: for every interval above 0, `start` with
`EVENT_TYPE_CPU_CLOCK` returns true and installs the handler, but the timer it
programs is running only from 1000 ns on; for an interval of 1 to 999 ns both
timer fields are 0 s, 0 us, a stopped timer. -/
theorem start_armed_iff (s : PerfEvents) (interval : Int) (hi : 0 < interval) :
    (s.start interval .EVENT_TYPE_CPU_CLOCK).1 = true ∧
    (s.start interval .EVENT_TYPE_CPU_CLOCK).2.sigprof.sa_sigaction = .signalHandler ∧
    ((s.start interval .EVENT_TYPE_CPU_CLOCK).2.itimer_prof.armed = true ↔
      1000 ≤ interval) ∧
    (interval < 1000 →
      (s.start interval .EVENT_TYPE_CPU_CLOCK).2.itimer_prof = ⟨⟨0, 0⟩, ⟨0, 0⟩⟩) := by
  rw [start_of_valid s interval _ hi rfl]
  have h0 : (0 : Int) ≤ interval := le_of_lt hi
  have hd : Int.tdiv interval 1000000000 = interval / 1000000000 :=
    Int.tdiv_eq_ediv h0 (by decide)
  have hm : Int.tmod interval 1000000000 = interval % 1000000000 :=
    Int.tmod_eq_emod h0 (by decide)
  have hm0 : (0 : Int) ≤ interval % 1000000000 := Int.emod_nonneg _ (by decide)
  have hd2 : Int.tdiv (interval % 1000000000) 1000 = interval % 1000000000 / 1000 :=
    Int.tdiv_eq_ediv hm0 (by decide)
  refine ⟨rfl, rfl, ?_, ?_⟩
  · simp only [Itimerval.armed, hd, hm, hd2, Bool.or_eq_true, bne_iff_ne, ne_eq]
    omega
  · intro hlt
    simp only [hd, hm, hd2]
    have e1 : interval / 1000000000 = 0 := by omega
    have e2 : interval % 1000000000 / 1000 = 0 := by omega
    rw [e1, e2]

/-- C5 at 999 ns: `start` returns true with the handler installed and the
timer stopped. -/
theorem start_armed_iff_witness :
    (0 : Int) < 999 ∧
    (PerfEvents.initial.start 999 .EVENT_TYPE_CPU_CLOCK).1 = true ∧
    (PerfEvents.initial.start 999 .EVENT_TYPE_CPU_CLOCK).2.sigprof.sa_sigaction =
      .signalHandler ∧
    (PerfEvents.initial.start 999 .EVENT_TYPE_CPU_CLOCK).2.itimer_prof.armed = false ∧
    (PerfEvents.initial.start 999 .EVENT_TYPE_CPU_CLOCK).2.itimer_prof =
      ⟨⟨0, 0⟩, ⟨0, 0⟩⟩ :=
  have h := start_armed_iff PerfEvents.initial 999 (by decide)
  ⟨by decide, h.1, h.2.1, by decide, h.2.2.2 (by decide)⟩


/-! ## C6: `stop` -/

/-- C6: from every backend state `stop` leaves the timer setting all-zero
(stopped) and changes nothing else; `stop` after `stop` changes nothing; on a
backend on which no `start` was ever accepted `stop` leaves the state as it is;
and after a `stop` the timer setting stays all-zero through every sequence of
calls that contains no accepted `start`. -/
theorem stop_disarms (s : PerfEvents) :
    s.stop.itimer_prof = ⟨⟨0, 0⟩, ⟨0, 0⟩⟩ ∧ s.stop.itimer_prof.armed = false ∧
    s.stop = { s with itimer_prof := ⟨⟨0, 0⟩, ⟨0, 0⟩⟩ } ∧
    s.stop.stop = s.stop ∧
    (∀ calls, PerfEvents.initial.lastStarted calls none = none →
      (PerfEvents.initial.run calls).stop = PerfEvents.initial.run calls) ∧
    (∀ calls, s.stop.lastStarted calls none = none →
      (s.stop.run calls).itimer_prof = ⟨⟨0, 0⟩, ⟨0, 0⟩⟩) := by
  refine ⟨rfl, rfl, rfl, rfl, ?_, ?_⟩
  · intro calls h
    rw [run_without_start PerfEvents.initial calls none h rfl (fun i hi => by simp at hi)]
    rfl
  · intro calls h
    rw [run_without_start s.stop calls none h rfl (fun i hi => by simp at hi)]
    rfl

/-! ## C7: `start` on a running backend -/

/-- C7: from every backend state and for all intervals above 0, an accepted
`start` followed by a second accepted `start` leaves exactly the state that the
second `start` alone leaves; a rejected `start` on a backend whose timer is
running leaves the whole state, running timer and stored interval included, as
it was; and a state holds at most one running trigger after any sequence of
calls. -/
theorem restart_replaces (s : PerfEvents) (i1 i2 : Int) :
    (0 < i1 → 0 < i2 →
      ((s.start i1 .EVENT_TYPE_CPU_CLOCK).2.start i2 .EVENT_TYPE_CPU_CLOCK).1 = true ∧
      ((s.start i1 .EVENT_TYPE_CPU_CLOCK).2.start i2 .EVENT_TYPE_CPU_CLOCK).2 =
        (s.start i2 .EVENT_TYPE_CPU_CLOCK).2) ∧
    (∀ i t, s.itimer_prof.armed = true → (s.start i t).1 = false →
      (s.start i t).2 = s ∧ (s.start i t).2.itimer_prof.armed = true) ∧
    (∀ calls, (s.run calls).activeTriggers ≤ 1) := by
  refine ⟨?_, ?_, ?_⟩
  · intro h1 h2
    rw [start_of_valid s i1 _ h1 rfl, start_of_valid _ i2 _ h2 rfl,
      start_of_valid s i2 _ h2 rfl]
    exact ⟨rfl, rfl⟩
  · intro i t harmed hrej
    have hs : (s.start i t).2 = s := by
      by_cases hv : i ≤ 0 ∨ t ≠ .EVENT_TYPE_CPU_CLOCK
      · rw [start_of_invalid s i t hv]
      · have hi : 0 < i := not_le.mp (fun hle => hv (Or.inl hle))
        have ht : t = .EVENT_TYPE_CPU_CLOCK := by
          by_contra hne
          exact hv (Or.inr hne)
        rw [start_of_valid s i t hi ht] at hrej
        simp at hrej
    rw [hs]
    exact ⟨rfl, harmed⟩
  · intro calls
    unfold PerfEvents.activeTriggers
    split <;> decide

/-! ## C8: what a delivered signal records -/

/-- C8: in every state reached from process start by a sequence of `start` and
`stop` calls in which the timer is running, a delivery of `SIGPROF` makes
exactly one `recordSample` call: with the delivered execution context, with the
interval of the most recent accepted `start` as weight, which is above 0, with
counter id 0 and with no call chain. -/
theorem deliver_records_once (calls : List Call) (siginfo ucontext : Nat)
    (harmed : (PerfEvents.initial.run calls).itimer_prof.armed = true) :
    ∃ i, PerfEvents.initial.lastStarted calls none = some i ∧ 0 < i ∧
      (PerfEvents.initial.run calls).deliver siginfo ucontext =
        [⟨ucontext, i, 0, none⟩] := by
  obtain ⟨h1, h2⟩ := run_invariant PerfEvents.initial calls none
    (fun h => by simp [PerfEvents.initial, Itimerval.armed] at h)
    (fun i hi => by simp at hi)
  obtain ⟨i, hi⟩ := Option.ne_none_iff_exists'.mp (h1 harmed)
  obtain ⟨hpos, hint, hhandler⟩ := h2 i hi
  refine ⟨i, hi, hpos, ?_⟩
  unfold PerfEvents.deliver
  rw [hhandler]
  show PerfEvents.signalHandler _ SIGPROF siginfo ucontext = _
  unfold PerfEvents.signalHandler
  rw [hint]

/-- C8 after `start(5000)`, `stop`, a rejected `start`, `start(2000000)`. -/
theorem deliver_records_once_witness :
    (PerfEvents.initial.run
      [.start 5000 .EVENT_TYPE_CPU_CLOCK, .stop, .start 7000 .EVENT_TYPE_CYCLES,
        .start 2000000 .EVENT_TYPE_CPU_CLOCK]).itimer_prof.armed = true ∧
    ∃ i, PerfEvents.initial.lastStarted
        [.start 5000 .EVENT_TYPE_CPU_CLOCK, .stop, .start 7000 .EVENT_TYPE_CYCLES,
          .start 2000000 .EVENT_TYPE_CPU_CLOCK] none = some i ∧ 0 < i ∧
      (PerfEvents.initial.run
        [.start 5000 .EVENT_TYPE_CPU_CLOCK, .stop, .start 7000 .EVENT_TYPE_CYCLES,
          .start 2000000 .EVENT_TYPE_CPU_CLOCK]).deliver 0 42 = [⟨42, i, 0, none⟩] :=
  ⟨by decide, deliver_records_once _ 0 42 (by decide)⟩


/-! ## C9: values that are not decimal integers -/

/-- C9, counterexamples: `interval=12abc` and `framebuf=7x` are accepted, with
12 and 7 stored, and `traces=abc` is accepted, with 0 stored. -/
theorem parse_accepts_non_numeric :
    parse 64 "interval=12abc".toList sampleArguments =
      (none, { sampleArguments with
        _interval := 12
        _buf := "interval".toList ++ NUL :: "12abc".toList ++ List.replicate 50 NUL }) ∧
    (parse 64 "framebuf=7x".toList sampleArguments).1 = none ∧
    (parse 64 "framebuf=7x".toList sampleArguments).2._framebuf = 7 ∧
    (parse 64 "traces=abc".toList sampleArguments).1 = none ∧
    (parse 64 "traces=abc".toList sampleArguments).2._dump_traces = 0 := by
  decide

/-- C9, amended: below the length limit `parse` returns a message exactly when
some argument of the string is rejected. An `interval=V` or `framebuf=V`
argument is rejected exactly when the value is missing or `atoi` reads it as an
integer that is at most 0, and `atoi` reads a value that starts with a digit up
to its first non-digit and ignores what follows. A `traces=V` or `flat=V`
argument is never rejected. -/
theorem parse_fails_iff (bufSize : Nat) (args : List Char) (a : Arguments)
    (hlen : strlen args < bufSize) :
    ((parse bufSize args a).1 ≠ none ↔ ∃ t ∈ argList args, argError t ≠ none) ∧
    (∀ t, argName t = "interval".toList ∨ argName t = "framebuf".toList →
      (argError t ≠ none ↔
        argValue t = none ∨ ∃ v, argValue t = some v ∧ atoi v ≤ 0)) ∧
    (∀ d c rest, d ≠ [] → (∀ x ∈ d, isdigit x = true) → isdigit c = false →
      atoi (d ++ c :: rest) = atoi d) ∧
    (∀ t, argName t = "traces".toList ∨ argName t = "flat".toList →
      argError t = none) := by
  refine ⟨?_, ?_, atoi_ignores_rest, argError_dump_limit⟩
  · rw [parse_msg bufSize args a hlen]
    constructor
    · intro h
      by_contra hno
      apply h
      apply firstError_none
      intro t ht
      by_contra hne
      exact hno ⟨t, ht, hne⟩
    · rintro ⟨t, ht, hne⟩
      exact firstError_of_mem _ t ht hne
  · intro t hn
    have key : argError t =
        (match argValue t with
          | none => some "interval must be > 0"
          | some v => if atoi v ≤ 0 then some "interval must be > 0" else none) ∨
        argError t =
        (match argValue t with
          | none => some "framebuf must be > 0"
          | some v => if atoi v ≤ 0 then some "framebuf must be > 0" else none) := by
      rcases hn with hn | hn
      · exact Or.inl (argError_interval t hn)
      · exact Or.inr (argError_framebuf t hn)
    cases hv : argValue t with
    | none =>
      rw [hv] at key
      rcases key with key | key <;> rw [key] <;> simp
    | some v =>
      rw [hv] at key
      by_cases hle : atoi v ≤ 0
      · rcases key with key | key <;> rw [key] <;> simp [hle]
      · rcases key with key | key <;> rw [key] <;> simp [hle]

/-- C9, amended, on `interval=12abc`. -/
theorem parse_fails_iff_witness :
    strlen "interval=12abc".toList < 64 ∧
    ((parse 64 "interval=12abc".toList sampleArguments).1 ≠ none ↔
      ∃ t ∈ argList "interval=12abc".toList, argError t ≠ none) ∧
    atoi ("12".toList ++ 'a' :: "bc".toList) = atoi "12".toList :=
  have h := parse_fails_iff 64 "interval=12abc".toList sampleArguments (by decide)
  ⟨by decide, h.1, h.2.2.1 "12".toList 'a' "bc".toList (by decide) (by decide) (by decide)⟩


/-! ## C10: event selection by `cpu:E` -/

/-- C10: in a string below the length limit let an argument have the name
`cpu:E`, the arguments before it being accepted. If `E` is one of `cycles`,
`context-switches`, `branch-misses`, `cache-misses`, `L1-dcache-load-misses`,
`LLC-load-misses`, the argument sets the mode to CPU and the event type to the
constant of that name and changes nothing else, and `parse` goes on with the
arguments after it (when it is the last one, `parse` returns `NULL` with that
object); for every other `E`, the empty one included, `parse` returns
"unknown event type". An argument with the name `cpu` sets the mode to CPU and
leaves the event type as it was. The six names have six different constants.
The arguments are taken with their places in the buffer, which the loop body
reads for a `file` argument only. -/
theorem cpu_event_selection (bufSize : Nat) (args : List Char) (a b : Arguments)
    (pre post : List Token) (t : Token) (hlen : strlen args < bufSize)
    (hargs : argTokens args = pre ++ t :: post) (hpre : applyArgs pre a = (none, b)) :
    (∀ E, argName t.text = "cpu:".toList ++ E →
      (∀ ev, (E, ev) ∈ eventNames →
        (parse bufSize args a).1 =
          (applyArgs post { b with _mode := .MODE_CPU, _event_type := ev }).1 ∧
        (parse bufSize args a).2 =
          { (applyArgs post { b with _mode := .MODE_CPU, _event_type := ev }).2 with
            _buf := (parse bufSize args a).2._buf }) ∧
      ((∀ ev, (E, ev) ∉ eventNames) →
        (parse bufSize args a).1 = some "unknown event type")) ∧
    (argName t.text = "cpu".toList →
      (parse bufSize args a).1 = (applyArgs post { b with _mode := .MODE_CPU }).1 ∧
      (parse bufSize args a).2 =
        { (applyArgs post { b with _mode := .MODE_CPU }).2 with
          _buf := (parse bufSize args a).2._buf }) ∧
    (eventNames.map Prod.fst).Nodup ∧ (eventNames.map Prod.snd).Nodup ∧
    eventNames.length = 6 := by
  obtain ⟨hmsg, hres⟩ := parse_eq_applyArgs bufSize args a hlen
  have happ : applyArgs (argTokens args) a =
      match processArg (argName t.text) (argValue t.text) t.valueAt b with
      | (some msg, a') => (some msg, a')
      | (none, a') => applyArgs post a' := by
    rw [hargs, applyArgs_append_ok pre (t :: post) a b hpre, applyArgs_cons]
    rfl
  rw [happ] at hmsg hres
  refine ⟨?_, ?_, by decide, by decide, by decide⟩
  · intro E hE
    rw [hE, processArg_cpu_event E (argValue t.text) t.valueAt b] at hmsg hres
    constructor
    · intro ev hev
      rw [(eventOfName_eq_some_iff E ev).mpr hev] at hmsg hres
      exact ⟨hmsg, hres⟩
    · intro hno
      have hnone : eventOfName E = none := by
        cases h : eventOfName E with
        | none => rfl
        | some ev => exact absurd ((eventOfName_eq_some_iff E ev).mp h) (hno ev)
      rw [hnone] at hmsg
      exact hmsg
  · intro hn
    rw [hn, processArg_cpu_bare (argValue t.text) t.valueAt b] at hmsg hres
    exact ⟨hmsg, hres⟩

/-- C10 on `start,cpu:cache-misses`. -/
theorem cpu_event_selection_witness :
    strlen "start,cpu:cache-misses".toList < 64 ∧
    argTokens "start,cpu:cache-misses".toList =
      [⟨0, "start".toList⟩] ++ ⟨6, "cpu:cache-misses".toList⟩ :: [] ∧
    applyArgs [⟨0, "start".toList⟩] sampleArguments =
      (none, { sampleArguments with _action := .ACTION_START }) ∧
    (parse 64 "start,cpu:cache-misses".toList sampleArguments).1 = none ∧
    (parse 64 "start,cpu:cache-misses".toList sampleArguments).2 =
      { sampleArguments with
        _action := .ACTION_START
        _mode := .MODE_CPU
        _event_type := .EVENT_TYPE_CACHE_MISSES
        _buf := (parse 64 "start,cpu:cache-misses".toList sampleArguments).2._buf } :=
  have h := cpu_event_selection 64 "start,cpu:cache-misses".toList sampleArguments
    { sampleArguments with _action := .ACTION_START } [⟨0, "start".toList⟩] []
    ⟨6, "cpu:cache-misses".toList⟩ (by decide) (by decide) (by decide)
  have h1 := (h.1 "cache-misses".toList (by decide)).1 .EVENT_TYPE_CACHE_MISSES (by decide)
  ⟨by decide, by decide, by decide, h1.1, h1.2⟩

/-! ## C11: which tokens select the CPU mode -/

/-- C11, what the code does: `cpux` is not an argument of the grammar and yet
sets the mode to CPU, here after `heap` had set it to HEAP; `cpufoo:cycles`
sets the mode to CPU and the event type to the cycles constant; and
`cpux:bogus` makes `parse` return "unknown event type". The test on the name
compares its first three characters only. -/
theorem cpu_prefix_accepted :
    (parse 64 "heap".toList sampleArguments).2._mode = .MODE_HEAP ∧
    (parse 64 "heap,cpux".toList sampleArguments).1 = none ∧
    (parse 64 "heap,cpux".toList sampleArguments).2._mode = .MODE_CPU ∧
    sampleArguments._event_type = .EVENT_TYPE_CPU_CLOCK ∧
    (parse 64 "heap,cpufoo:cycles".toList sampleArguments).1 = none ∧
    (parse 64 "heap,cpufoo:cycles".toList sampleArguments).2._mode = .MODE_CPU ∧
    (parse 64 "heap,cpufoo:cycles".toList sampleArguments).2._event_type =
      .EVENT_TYPE_CYCLES ∧
    (parse 64 "cpux:bogus".toList sampleArguments).1 = some "unknown event type" := by
  decide

/-! ## C12: the length limit -/

/-- C12: `parse` returns "Argument list too long" exactly when the length of
the argument string is at least the capacity of `_buf`, and then it leaves the
whole object, the configuration fields and `_buf`, as it was. -/
theorem parse_too_long_iff (bufSize : Nat) (args : List Char) (a : Arguments) :
    ((parse bufSize args a).1 = some "Argument list too long" ↔ bufSize ≤ strlen args) ∧
    (bufSize ≤ strlen args → (parse bufSize args a).2 = a) := by
  refine ⟨⟨fun h => ?_, fun h => by rw [parse_too_long bufSize args a h]⟩,
    fun h => by rw [parse_too_long bufSize args a h]⟩
  by_contra hlen
  have hlt : strlen args < bufSize := not_le.mp hlen
  rw [(parse_eq_applyArgs bufSize args a hlt).1] at h
  obtain ⟨pre, t, post, -, -, hterr, -⟩ := applyArgs_error_split (argTokens args) a _ h
  exact argError_ne_too_long t.text hterr

/-- C12 at the boundary: with a capacity of 6 the five characters of `start`
are accepted and the six characters of `status` are rejected, nothing being
changed. -/
theorem parse_too_long_iff_witness :
    strlen "start".toList = 5 ∧ (parse 6 "start".toList sampleArguments).1 = none ∧
    strlen "status".toList = 6 ∧
    parse 6 "status".toList sampleArguments =
      (some "Argument list too long", sampleArguments) :=
  have h := parse_too_long_iff 6 "status".toList sampleArguments
  ⟨by decide, by decide, by decide, Prod.ext (h.1.2 (by decide)) (h.2 (by decide))⟩

/-! ## C13: the output file -/

/-- C13: below the length limit, a `file` argument without `=` or with an empty
value makes `parse` return a message, which is "file must not be empty" when no
earlier argument is rejected. After a call that returns `NULL`, the file name
read through `_file` is the text `v` of the last argument of the form `file=v`,
which is everything between the first `=` of that argument and the comma or end
of string that ends the argument, further `=` included. After such a call on a
string without a `file` argument, `_file` is the pointer the object had, so an
object that had no file has none. The arguments are the non-empty pieces
between the commas of the string. -/
theorem file_option (bufSize : Nat) (args : List Char) (a : Arguments)
    (hlen : strlen args < bufSize) :
    (∀ t ∈ argList args, argName t = "file".toList →
      (argValue t = none ∨ argValue t = some []) →
      (∃ msg, (parse bufSize args a).1 = some msg) ∧
      ∀ pre post, argList args = pre ++ t :: post → (∀ p ∈ pre, argError p = none) →
        (parse bufSize args a).1 = some "file must not be empty") ∧
    ((parse bufSize args a).1 = none →
      (∀ pre post v, argList args = pre ++ ("file=".toList ++ v) :: post →
        (∀ u ∈ post, argName u ≠ "file".toList) →
        (parse bufSize args a).2.fileName = some v) ∧
      ((∀ u ∈ argList args, argName u ≠ "file".toList) →
        (parse bufSize args a).2._file = a._file ∧
        (a._file = none → (parse bufSize args a).2.fileName = none))) ∧
    argList args = commaPieces (cstr args) := by
  have hmsg := parse_msg bufSize args a hlen
  obtain ⟨hname, hptr⟩ := parse_file bufSize args a hlen
  refine ⟨?_, ?_, argList_eq_commaPieces args⟩
  · intro t ht hn hv
    have hterr : argError t = some "file must not be empty" := by
      rw [argError_file t hn]
      rcases hv with hv | hv <;> rw [hv]
      rfl
    refine ⟨?_, ?_⟩
    · rw [hmsg]
      exact Option.ne_none_iff_exists'.mp
        (firstError_of_mem _ t ht (by rw [hterr]; exact Option.some_ne_none _))
    · intro pre post hsplit hpre
      rw [hmsg, hsplit]
      exact firstError_eq pre post t _ hpre hterr
  · intro hok
    rw [hmsg] at hok
    have hall : ∀ x ∈ argList args, argError x = none := by
      intro x hx
      by_contra hne
      exact firstError_of_mem _ x hx hne hok
    refine ⟨?_, ?_⟩
    · intro pre post v hsplit hpost
      refine (hname v ?_).1
      rw [hsplit] at hall ⊢
      rw [(acceptedFile_last pre post ("file=".toList ++ v) hall (argName_file_eq v) hpost).1,
        argValue_file_eq]
    · intro hno
      have hp := hptr (acceptedFile_none _ hno)
      refine ⟨hp, fun hnone => ?_⟩
      unfold Arguments.fileName
      rw [hp, hnone]
      rfl

/-- C13 on `file=a,start,file=b=c.txt`: the second `file` argument decides, and
its value keeps its own `=`. The object is one that held the file name `abc`
before the call. -/
theorem file_option_witness :
    strlen "file=a,start,file=b=c.txt".toList < 64 ∧
    parsedBefore.fileName = some "abc".toList ∧
    (parse 64 "file=a,start,file=b=c.txt".toList parsedBefore).1 = none ∧
    (parse 64 "file=a,start,file=b=c.txt".toList parsedBefore).2.fileName =
      some "b=c.txt".toList :=
  have h := file_option 64 "file=a,start,file=b=c.txt".toList parsedBefore (by decide)
  ⟨by decide, by decide, by decide,
    (h.2.1 (by decide)).1 ["file=a".toList, "start".toList] [] "b=c.txt".toList
      (by decide) (by decide)⟩

/-! ## C15: dump options combine -/

/-- C15: after a call that returns `NULL`, each dump field is decided by the
arguments of its own option alone, wherever they stand and whatever other
arguments the list has. `_dump_collapsed` is true if the list has a `collapsed`
or `folded` argument and as before otherwise; `_dump_summary` is true if it has
a `summary` argument and as before otherwise; `_dump_traces` is the limit of
the last `traces` argument, `atoi` of its value or `INT_MAX` without a value,
and as before without a `traces` argument; `_dump_flat` likewise for `flat`. -/
theorem dump_options_combine (bufSize : Nat) (args : List Char) (a : Arguments)
    (h : (parse bufSize args a).1 = none) :
    ((∃ t ∈ argList args, argName t = "collapsed".toList ∨ argName t = "folded".toList) →
      (parse bufSize args a).2._dump_collapsed = true) ∧
    ((∀ t ∈ argList args, ¬ (argName t = "collapsed".toList ∨ argName t = "folded".toList)) →
      (parse bufSize args a).2._dump_collapsed = a._dump_collapsed) ∧
    ((∃ t ∈ argList args, argName t = "summary".toList) →
      (parse bufSize args a).2._dump_summary = true) ∧
    ((∀ t ∈ argList args, argName t ≠ "summary".toList) →
      (parse bufSize args a).2._dump_summary = a._dump_summary) ∧
    (∀ pre t post, argList args = pre ++ t :: post → argName t = "traces".toList →
      (∀ u ∈ post, argName u ≠ "traces".toList) →
      (parse bufSize args a).2._dump_traces = dumpLimit (argValue t)) ∧
    ((∀ t ∈ argList args, argName t ≠ "traces".toList) →
      (parse bufSize args a).2._dump_traces = a._dump_traces) ∧
    (∀ pre t post, argList args = pre ++ t :: post → argName t = "flat".toList →
      (∀ u ∈ post, argName u ≠ "flat".toList) →
      (parse bufSize args a).2._dump_flat = dumpLimit (argValue t)) ∧
    ((∀ t ∈ argList args, argName t ≠ "flat".toList) →
      (parse bufSize args a).2._dump_flat = a._dump_flat) ∧
    dumpLimit none = INT_MAX ∧ ∀ v, dumpLimit (some v) = atoi v := by
  have hlen : strlen args < bufSize := by
    by_contra hge
    rw [parse_too_long bufSize args a (not_lt.mp hge)] at h
    simp at h
  obtain ⟨hmsg, hres⟩ := parse_eq_applyArgs bufSize args a hlen
  rw [hmsg] at h
  rw [hres]
  refine ⟨?_, ?_, ?_, ?_, ?_, ?_, ?_, ?_, rfl, fun _ => rfl⟩
  · intro hex
    obtain ⟨pre, t, post, hsplit, ht, hpost⟩ := exists_last_with
      (fun t => argName t = "collapsed".toList ∨ argName t = "folded".toList) _ hex
    exact applyArgs_last_text (fun x => x._dump_collapsed)
      (fun t => argName t = "collapsed".toList ∨ argName t = "folded".toList)
      (fun _ => true) processArg_dump_collapsed_keep
      (fun u p b hu _ => by rw [processArg_collapsed _ _ p b hu]) (argTokens args)
      pre post t a (by rw [argTokens_text]; exact hsplit) h ht hpost
  · intro hno
    exact applyArgs_keep_text (fun x => x._dump_collapsed)
      (fun t => argName t = "collapsed".toList ∨ argName t = "folded".toList)
      processArg_dump_collapsed_keep (argTokens args) a (by rw [argTokens_text]; exact hno)
  · intro hex
    obtain ⟨pre, t, post, hsplit, ht, hpost⟩ := exists_last_with
      (fun t => argName t = "summary".toList) _ hex
    exact applyArgs_last_text (fun x => x._dump_summary)
      (fun t => argName t = "summary".toList)
      (fun _ => true) processArg_dump_summary_keep
      (fun u p b hu _ => by rw [hu, processArg_summary]) (argTokens args)
      pre post t a (by rw [argTokens_text]; exact hsplit) h ht hpost
  · intro hno
    exact applyArgs_keep_text (fun x => x._dump_summary)
      (fun t => argName t = "summary".toList)
      processArg_dump_summary_keep (argTokens args) a (by rw [argTokens_text]; exact hno)
  · intro pre t post hsplit ht hpost
    exact applyArgs_last_text (fun x => x._dump_traces) (fun t => argName t = "traces".toList)
      (fun t => dumpLimit (argValue t)) processArg_dump_traces_keep
      (fun u p b hu _ => by rw [hu, processArg_traces]) (argTokens args)
      pre post t a (by rw [argTokens_text]; exact hsplit) h ht hpost
  · intro hno
    exact applyArgs_keep_text (fun x => x._dump_traces) (fun t => argName t = "traces".toList)
      processArg_dump_traces_keep (argTokens args) a (by rw [argTokens_text]; exact hno)
  · intro pre t post hsplit ht hpost
    exact applyArgs_last_text (fun x => x._dump_flat) (fun t => argName t = "flat".toList)
      (fun t => dumpLimit (argValue t)) processArg_dump_flat_keep
      (fun u p b hu _ => by rw [hu, processArg_flat]) (argTokens args)
      pre post t a (by rw [argTokens_text]; exact hsplit) h ht hpost
  · intro hno
    exact applyArgs_keep_text (fun x => x._dump_flat) (fun t => argName t = "flat".toList)
      processArg_dump_flat_keep (argTokens args) a (by rw [argTokens_text]; exact hno)

/-- C15 on `flat=3,summary,traces,start,folded=total`: all four dump options
are recorded. -/
theorem dump_options_combine_witness :
    (parse 64 "flat=3,summary,traces,start,folded=total".toList sampleArguments).1 = none ∧
    (parse 64 "flat=3,summary,traces,start,folded=total".toList
      sampleArguments).2._dump_collapsed = true ∧
    (parse 64 "flat=3,summary,traces,start,folded=total".toList
      sampleArguments).2._dump_summary = true ∧
    (parse 64 "flat=3,summary,traces,start,folded=total".toList
      sampleArguments).2._dump_traces = INT_MAX ∧
    (parse 64 "flat=3,summary,traces,start,folded=total".toList
      sampleArguments).2._dump_flat = 3 :=
  have h := dump_options_combine 64 "flat=3,summary,traces,start,folded=total".toList
    sampleArguments (by decide)
  ⟨by decide, h.1 (by decide), h.2.2.1 (by decide),
    h.2.2.2.2.1 ["flat=3".toList, "summary".toList] "traces".toList
      ["start".toList, "folded=total".toList] (by decide) (by decide) (by decide),
    h.2.2.2.2.2.2.1 [] "flat=3".toList
      ["summary".toList, "traces".toList, "start".toList, "folded=total".toList]
      (by decide) (by decide) (by decide)⟩

/-! ## C20: the last action wins -/

/-- C20: after a call that returns `NULL`, `_action` is the action of the last
argument that selects one (`start`, `stop`, `status` their own, each of
`collapsed`, `folded`, `summary`, `traces`, `flat` the dump action), and the
action the object had before when no argument selects one. From every object
`start,collapsed` leaves the dump action, and `collapsed,start` leaves the start
action with the collapsed-dump flag set. -/
theorem last_action_wins (bufSize : Nat) (args : List Char) (a : Arguments)
    (h : (parse bufSize args a).1 = none) :
    (∀ pre t post act, argList args = pre ++ t :: post →
      actionOfName (argName t) = some act →
      (∀ u ∈ post, actionOfName (argName u) = none) →
      (parse bufSize args a).2._action = act) ∧
    ((∀ u ∈ argList args, actionOfName (argName u) = none) →
      (parse bufSize args a).2._action = a._action) ∧
    (∀ (b : Arguments) (n : Nat), 15 < n →
      (parse n "start,collapsed".toList b).1 = none ∧
      (parse n "start,collapsed".toList b).2._action = .ACTION_DUMP) ∧
    (∀ (b : Arguments) (n : Nat), 15 < n →
      (parse n "collapsed,start".toList b).1 = none ∧
      (parse n "collapsed,start".toList b).2._action = .ACTION_START ∧
      (parse n "collapsed,start".toList b).2._dump_collapsed = true) := by
  have hlen : strlen args < bufSize := by
    by_contra hge
    rw [parse_too_long bufSize args a (not_lt.mp hge)] at h
    simp at h
  obtain ⟨hmsg, hres⟩ := parse_eq_applyArgs bufSize args a hlen
  rw [hmsg] at h
  have hkeep : ∀ (t : List Char) (p : Nat) (b : Arguments),
      ¬ actionOfName (argName t) ≠ none →
      (processArg (argName t) (argValue t) p b).2._action = b._action := by
    intro t p b hn
    rw [processArg_action, not_not.mp hn]
    rfl
  refine ⟨?_, ?_, ?_, ?_⟩
  · intro pre t post act hsplit ht hpost
    rw [hres]
    have := applyArgs_last_text (fun x => x._action)
      (fun t => actionOfName (argName t) ≠ none)
      (fun t => (actionOfName (argName t)).getD act) hkeep
      (fun u p b hu _ => by
        dsimp only at hu ⊢
        rw [processArg_action]
        obtain ⟨x, hx⟩ := Option.ne_none_iff_exists'.mp hu
        rw [hx]
        rfl)
      (argTokens args) pre post t a (by rw [argTokens_text]; exact hsplit) h
      (by dsimp only; rw [ht]; exact Option.some_ne_none _)
      (fun u hu => by dsimp only; rw [hpost u hu]; exact fun hne => hne rfl)
    dsimp only at this
    rw [this, ht]
    rfl
  · intro hno
    rw [hres]
    exact applyArgs_keep_text (fun x => x._action)
      (fun t => actionOfName (argName t) ≠ none) hkeep (argTokens args) a
      (fun u hu => by
        rw [argTokens_text] at hu
        dsimp only
        rw [hno u hu]
        exact fun hne => hne rfl)
  · intro b n hn
    obtain ⟨h1, h2⟩ := parse_eq_applyArgs n "start,collapsed".toList b
      (lt_of_eq_of_lt (by decide) hn)
    rw [h1, h2]
    have hl : argTokens "start,collapsed".toList =
        [⟨0, "start".toList⟩, ⟨6, "collapsed".toList⟩] := by
      decide
    rw [hl]
    exact ⟨rfl, rfl⟩
  · intro b n hn
    obtain ⟨h1, h2⟩ := parse_eq_applyArgs n "collapsed,start".toList b
      (lt_of_eq_of_lt (by decide) hn)
    rw [h1, h2]
    have hl : argTokens "collapsed,start".toList =
        [⟨0, "collapsed".toList⟩, ⟨10, "start".toList⟩] := by
      decide
    rw [hl]
    exact ⟨rfl, rfl, rfl⟩

/-- C20 on `stop,traces=5,cpu,status,interval=7`: the last argument that selects
an action is `status`. -/
theorem last_action_wins_witness :
    (parse 64 "stop,traces=5,cpu,status,interval=7".toList sampleArguments).1 = none ∧
    (parse 64 "stop,traces=5,cpu,status,interval=7".toList sampleArguments).2._action =
      .ACTION_STATUS :=
  have h := last_action_wins 64 "stop,traces=5,cpu,status,interval=7".toList
    sampleArguments (by decide)
  ⟨by decide,
    h.1 ["stop".toList, "traces=5".toList, "cpu".toList] "status".toList
      ["interval=7".toList] .ACTION_STATUS (by decide) (by decide) (by decide)⟩

/-! ## C14: `folded` is a synonym for `collapsed` -/

/-- C14, counterexamples: on an object that holds the file name `abc` from an
earlier call, `folded` and `collapsed` both return `NULL` and leave `_file`
pointing to the sixth character of `_buf`, where the file name now read is `d`
after `folded` and `psed` after `collapsed`. On an object without a file,
`folded,file=x` and `collapsed,file=x` leave the same file name `x`, at
different places of `_buf`. -/
theorem folded_changes_file :
    parsedBefore.fileName = some "abc".toList ∧
    (parse 64 "folded".toList parsedBefore).1 = none ∧
    (parse 64 "collapsed".toList parsedBefore).1 = none ∧
    (parse 64 "folded".toList parsedBefore).2._file = some 5 ∧
    (parse 64 "collapsed".toList parsedBefore).2._file = some 5 ∧
    (parse 64 "folded".toList parsedBefore).2.fileName = some "d".toList ∧
    (parse 64 "collapsed".toList parsedBefore).2.fileName = some "psed".toList ∧
    sampleArguments._file = none ∧
    (parse 64 "folded,file=x".toList sampleArguments).2._file = some 12 ∧
    (parse 64 "collapsed,file=x".toList sampleArguments).2._file = some 15 ∧
    (parse 64 "folded,file=x".toList sampleArguments).2.fileName = some "x".toList ∧
    (parse 64 "collapsed,file=x".toList sampleArguments).2.fileName = some "x".toList := by
  decide

/-- C14, amended: let two argument strings below the length limit have the same
arguments except that `folded` or `folded=C` arguments of the first appear as
`collapsed` or `collapsed=C` in the second. Then `parse` returns the same
message on both and leaves the same value in every data member other than
`_buf` and the pointer `_file`; the file name read through `_file` is the same
as well when the object had no file before the call or the call accepts a
`file` argument before it returns. An argument with either name, the arguments
before it being accepted, sets the action to dump, sets the collapsed-dump flag
and selects the counter, SAMPLES when it has no value or the value `samples`,
TOTAL when it has the value `total`, changes nothing else, and `parse` goes on
with the arguments after it. -/
theorem folded_is_collapsed (bufSize : Nat) (args args' : List Char) (a : Arguments)
    (hlen : strlen args < bufSize) (hlen' : strlen args' < bufSize)
    (hsub : List.Forall₂ FoldedRenamed (argList args) (argList args')) :
    SameSettings bufSize args args' a ∧
    (FileDecided args a → SameOutcome bufSize args args' a) ∧
    ∀ pre t post b c, argTokens args = pre ++ t :: post → applyArgs pre a = (none, b) →
      (argName t.text = "collapsed".toList ∨ argName t.text = "folded".toList) →
      ((argValue t.text = none ∧ c = Counter.COUNTER_SAMPLES) ∨
        (argValue t.text = some "samples".toList ∧ c = Counter.COUNTER_SAMPLES) ∨
        (argValue t.text = some "total".toList ∧ c = Counter.COUNTER_TOTAL)) →
      (parse bufSize args a).1 =
        (applyArgs post
          { b with _action := .ACTION_DUMP, _dump_collapsed := true, _counter := c }).1 ∧
      (parse bufSize args a).2 =
        { (applyArgs post
            { b with _action := .ACTION_DUMP, _dump_collapsed := true, _counter := c }).2 with
          _buf := (parse bufSize args a).2._buf } := by
  have hr : List.Forall₂ (fun t t' => FoldedRenamed t.text t'.text)
      (argTokens args) (argTokens args') := by
    rw [← argTokens_text args, ← argTokens_text args'] at hsub
    exact List.forall₂_map_right_iff.mp (List.forall₂_map_left_iff.mp hsub)
  have hres : SameResult bufSize args args' a :=
    sameResult_of bufSize args args' a hlen hlen'
      (applyArgs_foldedRenamed _ _ a a hr rfl)
      (acceptedFile_foldedRenamed _ _ hsub).symm
  refine ⟨hres.1, hres.2, ?_⟩
  intro pre t post b c hsplit hpre hn hc
  obtain ⟨hmsg, hargs⟩ := parse_eq_applyArgs bufSize args a hlen
  have happ : applyArgs (argTokens args) a =
      applyArgs post
        { b with
          _action := .ACTION_DUMP
          _dump_collapsed := true
          _counter :=
            if argValue t.text = none ∨ argValue t.text = some "samples".toList then
              .COUNTER_SAMPLES
            else .COUNTER_TOTAL } := by
    rw [hsplit, applyArgs_append_ok pre (t :: post) a b hpre, applyArgs_cons]
    unfold processToken
    rw [processArg_collapsed _ _ t.valueAt b hn]
  rw [happ] at hmsg hargs
  rcases hc with ⟨hv, rfl⟩ | ⟨hv, rfl⟩ | ⟨hv, rfl⟩ <;> rw [hv] at hmsg hargs <;>
    exact ⟨hmsg, hargs⟩

/-- C14, amended, on `file=o.txt,folded=total` and `file=o.txt,collapsed=total`,
called on an object that held the file name `abc` before. -/
theorem folded_is_collapsed_witness :
    strlen "file=o.txt,folded=total".toList < 64 ∧
    strlen "file=o.txt,collapsed=total".toList < 64 ∧
    FileDecided "file=o.txt,folded=total".toList parsedBefore ∧
    SameOutcome 64 "file=o.txt,folded=total".toList "file=o.txt,collapsed=total".toList
      parsedBefore ∧
    (parse 64 "file=o.txt,folded=total".toList parsedBefore).2.fileName =
      some "o.txt".toList ∧
    (parse 64 "file=o.txt,folded=total".toList parsedBefore).2._counter = .COUNTER_TOTAL :=
  have hsub : List.Forall₂ FoldedRenamed (argList "file=o.txt,folded=total".toList)
      (argList "file=o.txt,collapsed=total".toList) :=
    (by decide : argList "file=o.txt,folded=total".toList =
      ["file=o.txt".toList, "folded=total".toList]) ▸
    (by decide : argList "file=o.txt,collapsed=total".toList =
      ["file=o.txt".toList, "collapsed=total".toList]) ▸
    List.Forall₂.cons (Or.inl rfl)
      (List.Forall₂.cons (Or.inr ⟨by decide, by decide⟩) List.Forall₂.nil)
  have hd : FileDecided "file=o.txt,folded=total".toList parsedBefore :=
    Or.inr (by decide)
  have h := folded_is_collapsed 64 "file=o.txt,folded=total".toList
    "file=o.txt,collapsed=total".toList parsedBefore (by decide) (by decide) hsub
  ⟨by decide, by decide, hd, h.2.1 hd, by decide, by decide⟩

/-! ## C19: unrecognised arguments and empty tokens -/

/-- C19, counterexamples: `zz` is an unrecognised token. On an object that
holds the file name `abc` from an earlier call, `start` and `zz,start` both
return `NULL` and leave `_file` pointing to the sixth character of `_buf`, where
the file name now read is empty after `start` and `art` after `zz,start`; and
`,start`, with an empty token in front, leaves the file name `t`. On an object
without a file, `file=x` and `zz,file=x` leave the same file name `x`, at
different places of `_buf`. -/
theorem unrecognised_changes_file :
    unrecognised (argName "zz".toList) ∧
    parsedBefore.fileName = some "abc".toList ∧
    (parse 64 "start".toList parsedBefore).1 = none ∧
    (parse 64 "zz,start".toList parsedBefore).1 = none ∧
    (parse 64 "start".toList parsedBefore).2._file = some 5 ∧
    (parse 64 "zz,start".toList parsedBefore).2._file = some 5 ∧
    (parse 64 "start".toList parsedBefore).2.fileName = some [] ∧
    (parse 64 "zz,start".toList parsedBefore).2.fileName = some "art".toList ∧
    (parse 64 ",start".toList parsedBefore).2.fileName = some "t".toList ∧
    sampleArguments._file = none ∧
    (parse 64 "file=x".toList sampleArguments).2._file = some 5 ∧
    (parse 64 "zz,file=x".toList sampleArguments).2._file = some 8 ∧
    (parse 64 "file=x".toList sampleArguments).2.fileName = some "x".toList ∧
    (parse 64 "zz,file=x".toList sampleArguments).2.fileName = some "x".toList :=
  ⟨⟨by decide, by decide⟩, by decide, by decide, by decide, by decide, by decide, by decide,
    by decide, by decide, by decide, by decide, by decide, by decide, by decide⟩

/-- C19, amended: let `u` be a token (not empty, without comma and NUL) whose
name is none of `start`, `stop`, `status`, `heap`, `collapsed`, `folded`,
`summary`, `traces`, `flat`, `interval`, `framebuf`, `file` and does not begin
with `cpu`. Two strings below the length limit whose argument lists differ by
`u`, put in at any place, have the same result: `parse` returns the same
message and leaves the same value in every data member other than `_buf` and
the pointer `_file`, and the file name read through `_file` is the same as well
when the object had no file before the call or the call accepts a `file`
argument before it returns. In particular this holds for `u` put in at a comma
of the string, before the string and after it, and it holds for leading,
trailing and doubled commas. On the empty string `parse` returns `NULL`,
changes no setting and not the pointer `_file`, and the file name is as before
unless `_file` pointed to the first character of `_buf`, where no call of
`parse` points it. Here `x` is a part of the argument string, so it has no
NUL. -/
theorem unrecognised_ignored (bufSize : Nat) (a : Arguments) (u x y : List Char)
    (hu : unrecognised (argName u)) (hcomma : ',' ∉ u) (hnul : NUL ∉ u) (hne : u ≠ [])
    (hx : NUL ∉ x) :
    (∀ args args' pre post, strlen args < bufSize → strlen args' < bufSize →
      argList args = pre ++ post → argList args' = pre ++ u :: post →
      SameResult bufSize args args' a) ∧
    (strlen (x ++ ',' :: (u ++ ',' :: y)) < bufSize →
      SameResult bufSize (x ++ ',' :: y) (x ++ ',' :: (u ++ ',' :: y)) a) ∧
    (strlen (u ++ ',' :: y) < bufSize → SameResult bufSize y (u ++ ',' :: y) a) ∧
    (strlen (x ++ ',' :: u) < bufSize → SameResult bufSize x (x ++ ',' :: u) a) ∧
    (strlen (',' :: y) < bufSize → SameResult bufSize y (',' :: y) a) ∧
    (strlen (x ++ [',']) < bufSize → SameResult bufSize x (x ++ [',']) a) ∧
    (strlen (x ++ ',' :: ',' :: y) < bufSize →
      SameResult bufSize (x ++ ',' :: y) (x ++ ',' :: ',' :: y) a) ∧
    (0 < bufSize →
      (parse bufSize [] a).1 = none ∧ (parse bufSize [] a).2.settings = a.settings ∧
      (parse bufSize [] a).2._file = a._file ∧
      (a._file ≠ some 0 → (parse bufSize [] a).2.fileName = a.fileName)) ∧
    (∀ (n : Nat) (args : List Char) (b : Arguments),
      (parse n args b).2._file = some 0 → b._file = some 0) := by
  have hux : strlen u = u.length := by
    have := strlen_append u [] hnul
    rw [List.append_nil] at this
    rw [this]; rfl
  have hxx : strlen x = x.length := by
    have := strlen_append x [] hx
    rw [List.append_nil] at this
    rw [this]; rfl
  have hins : ∀ args args' pre post, strlen args < bufSize → strlen args' < bufSize →
      argList args = pre ++ post → argList args' = pre ++ u :: post →
      SameResult bufSize args args' a := by
    intro args args' pre post hlen hlen' hargs hargs'
    apply sameResult_of bufSize args args' a hlen hlen'
    · exact applyArgs_insert (argTokens args) (argTokens args') pre post u a hu
        (by rw [argTokens_text]; exact hargs) (by rw [argTokens_text]; exact hargs')
    · rw [hargs, hargs', acceptedFile_remove pre post u hu]
  have hsame : ∀ args args', strlen args < bufSize → strlen args' < bufSize →
      argList args = argList args' → SameResult bufSize args args' a := by
    intro args args' hlen hlen' hargs
    apply sameResult_of bufSize args args' a hlen hlen'
    · exact applyArgs_settings (argTokens args) (argTokens args') a a
        (by rw [argTokens_text, argTokens_text]; exact hargs) rfl
    · rw [hargs]
  refine ⟨hins, ?_, ?_, ?_, ?_, ?_, ?_, parse_empty bufSize a, parse_file_ne_start⟩
  · intro hlen
    have hshort : strlen (x ++ ',' :: y) < bufSize := by
      rw [strlen_append _ _ hx, strlen_comma] at hlen ⊢
      rw [strlen_append _ _ hnul, strlen_comma] at hlen
      omega
    apply hins _ _ (commaPieces x) (argList y) hshort hlen
    · rw [argList_append_comma x _ hx]
    · rw [argList_append_comma x _ hx, argList_token_comma u y hcomma hnul hne]
  · intro hlen
    have hshort : strlen y < bufSize := by
      rw [strlen_append _ _ hnul, strlen_comma] at hlen
      omega
    apply hins _ _ [] (argList y) hshort hlen
    · rfl
    · rw [argList_token_comma u y hcomma hnul hne]
      rfl
  · intro hlen
    have hshort : strlen x < bufSize := by
      rw [strlen_append _ _ hx, strlen_comma] at hlen
      omega
    apply hins _ _ (commaPieces x) [] hshort hlen
    · rw [argList_of_no_nul x hx, List.append_nil]
    · rw [argList_append_comma x _ hx, argList_of_no_nul u hnul,
        commaPieces_single u (fun c hc e => hcomma (e ▸ hc)) hne]
  · intro hlen
    have hshort : strlen y < bufSize := by
      rw [strlen_comma] at hlen
      omega
    apply hsame _ _ hshort hlen
    rw [argList_comma]
  · intro hlen
    have hshort : strlen x < bufSize := by
      rw [strlen_append _ _ hx, strlen_comma] at hlen
      omega
    apply hsame _ _ hshort hlen
    rw [argList_append_comma x _ hx, argList_of_no_nul x hx]
    have : argList [] = [] := rfl
    rw [this, List.append_nil]
  · intro hlen
    have hshort : strlen (x ++ ',' :: y) < bufSize := by
      rw [strlen_append _ _ hx, strlen_comma] at hlen ⊢
      rw [strlen_comma] at hlen
      omega
    apply hsame _ _ hshort hlen
    rw [argList_append_comma x _ hx, argList_append_comma x _ hx, argList_comma]

/-- C19, amended, with the token `verbose=1` put into `file=o.txt,interval=5`
and with empty tokens, called on an object that held the file name `abc`
before; and the empty string on that object. -/
theorem unrecognised_ignored_witness :
    parsedBefore.fileName = some "abc".toList ∧
    FileDecided "file=o.txt,interval=5".toList parsedBefore ∧
    SameOutcome 64 "file=o.txt,interval=5".toList "file=o.txt,verbose=1,interval=5".toList
      parsedBefore ∧
    SameOutcome 64 "file=o.txt,interval=5".toList "file=o.txt,,interval=5".toList
      parsedBefore ∧
    SameSettings 64 "interval=5".toList "verbose=1,interval=5".toList parsedBefore ∧
    SameSettings 64 "file=o.txt".toList "file=o.txt,verbose=1".toList parsedBefore ∧
    (parse 64 "file=o.txt,verbose=1,interval=5".toList parsedBefore).2.fileName =
      some "o.txt".toList ∧
    (parse 64 [] parsedBefore).1 = none ∧
    (parse 64 [] parsedBefore).2.fileName = some "abc".toList :=
  have h := unrecognised_ignored 64 parsedBefore "verbose=1".toList "file=o.txt".toList
    "interval=5".toList ⟨by decide, by decide⟩ (by decide) (by decide) (by decide)
    (by decide)
  have hd : FileDecided "file=o.txt,interval=5".toList parsedBefore := Or.inr (by decide)
  have he := h.2.2.2.2.2.2.2.1 (by decide)
  ⟨by decide, hd, (h.2.1 (by decide)).2 hd, (h.2.2.2.2.2.2.1 (by decide)).2 hd,
    (h.2.2.1 (by decide)).1, (h.2.2.2.1 (by decide)).1, by decide, he.1,
    (he.2.2.2 (by decide)).trans (by decide)⟩

/-! ## C16: the dumps of the embedding interface start with the summary -/

/-- C16: for every table and every `max_traces`, the text that `dumpTraces0`
returns is the text of `dumpSummary` followed at once by the text of
`dumpTraces(n)`, where `n` is `max_traces` when that is not 0 and
`MAX_CALLTRACES` when it is 0; and `dumpFlat0` returns the text of
`dumpSummary` followed by the text of `dumpFlat(n)` with the same rule for
`n`. The texts are texts of a C string handed to the Java runtime, without
NUL. -/
theorem dumps_summary_prefixed {Table : Type} (profiler : Profiler Table) (table : Table)
    (max_traces max_methods : Int) (hs : NUL ∉ profiler.dumpSummary table)
    (ht : NUL ∉ profiler.dumpTraces table
      (if max_traces ≠ 0 then max_traces else profiler.MAX_CALLTRACES))
    (hf : NUL ∉ profiler.dumpFlat table
      (if max_methods ≠ 0 then max_methods else profiler.MAX_CALLTRACES)) :
    dumpTraces0 profiler table max_traces =
      profiler.dumpSummary table ++
        profiler.dumpTraces table
          (if max_traces ≠ 0 then max_traces else profiler.MAX_CALLTRACES) ∧
    dumpFlat0 profiler table max_methods =
      profiler.dumpSummary table ++
        profiler.dumpFlat table
          (if max_methods ≠ 0 then max_methods else profiler.MAX_CALLTRACES) :=
  ⟨NewStringUTF_of_text _ _ hs ht, NewStringUTF_of_text _ _ hs hf⟩

/-- C16 on a table of three traces, with a limit of 2 for the traces and the
limit 0, which stands for `MAX_CALLTRACES`, for the flat profile. -/
theorem dumps_summary_prefixed_witness :
    dumpTraces0 sampleProfiler [5, 3, 1] 2 = "traces ###\n**\n".toList ∧
    dumpFlat0 sampleProfiler [5, 3, 1] 0 = "traces ###\n+++\n".toList ∧
    dumpTraces0 sampleProfiler [5, 3, 1] 2 =
      sampleProfiler.dumpSummary [5, 3, 1] ++ sampleProfiler.dumpTraces [5, 3, 1] 2 ∧
    dumpFlat0 sampleProfiler [5, 3, 1] 0 =
      sampleProfiler.dumpSummary [5, 3, 1] ++
        sampleProfiler.dumpFlat [5, 3, 1] sampleProfiler.MAX_CALLTRACES :=
  have h := dumps_summary_prefixed sampleProfiler [5, 3, 1] 2 0 (by decide) (by decide)
    (by decide)
  ⟨by decide, by decide, h.1, h.2⟩

/-! ## C17: the timer value for an interval -/

/-- C17: for every interval above 0, given in nanoseconds, the seconds and
microseconds that `start` computes are the interval in whole microseconds,
rounded down: `sec * 1000000 + usec = interval / 1000` with `0 ≤ usec < 1000000`
and `0 ≤ sec`; and both the time to the first expiry and the repeat period of
the timer are set to that pair. -/
theorem timer_conversion (s : PerfEvents) (interval : Int) (hi : 0 < interval) :
    (s.start interval .EVENT_TYPE_CPU_CLOCK).2.itimer_prof.it_value =
      ⟨Int.tdiv interval 1000000000, Int.tdiv (Int.tmod interval 1000000000) 1000⟩ ∧
    (s.start interval .EVENT_TYPE_CPU_CLOCK).2.itimer_prof.it_interval =
      ⟨Int.tdiv interval 1000000000, Int.tdiv (Int.tmod interval 1000000000) 1000⟩ ∧
    Int.tdiv interval 1000000000 * 1000000 + Int.tdiv (Int.tmod interval 1000000000) 1000 =
      interval / 1000 ∧
    0 ≤ Int.tdiv (Int.tmod interval 1000000000) 1000 ∧
    Int.tdiv (Int.tmod interval 1000000000) 1000 < 1000000 ∧
    0 ≤ Int.tdiv interval 1000000000 := by
  rw [start_of_valid s interval _ hi rfl]
  have h0 : (0 : Int) ≤ interval := le_of_lt hi
  have hd : Int.tdiv interval 1000000000 = interval / 1000000000 :=
    Int.tdiv_eq_ediv h0 (by decide)
  have hm : Int.tmod interval 1000000000 = interval % 1000000000 :=
    Int.tmod_eq_emod h0 (by decide)
  have hm0 : (0 : Int) ≤ interval % 1000000000 := Int.emod_nonneg _ (by decide)
  have hd2 : Int.tdiv (interval % 1000000000) 1000 = interval % 1000000000 / 1000 :=
    Int.tdiv_eq_ediv hm0 (by decide)
  refine ⟨rfl, rfl, ?_, ?_, ?_, ?_⟩
  · rw [hd, hm, hd2]; omega
  · rw [hm, hd2]; omega
  · rw [hm, hd2]; omega
  · rw [hd]; omega

/-- C17 at 2147483647 ns, the largest 32-bit interval: 2 s and 147483 us. -/
theorem timer_conversion_witness :
    (0 : Int) < 2147483647 ∧
    (PerfEvents.initial.start 2147483647 .EVENT_TYPE_CPU_CLOCK).2.itimer_prof =
      ⟨⟨2, 147483⟩, ⟨2, 147483⟩⟩ ∧
    (2 : Int) * 1000000 + 147483 = 2147483647 / 1000 :=
  have h := timer_conversion PerfEvents.initial 2147483647 (by decide)
  ⟨by decide, by decide, h.2.2.1⟩

/-! ## C18: the hardware events of the parser and the macOS backend -/

/-- C18: every event type that the parser selects for a name `cpu:E` (`cycles`,
`context-switches`, `branch-misses`, `cache-misses`, `L1-dcache-load-misses`,
`LLC-load-misses`) makes `start` return false for every interval and leave the
backend state as it was; `start` returns true only for
`EVENT_TYPE_CPU_CLOCK`. So after a call of `parse` that returns `NULL` on a
string whose last argument with a name beginning with `cpu` is `cpu:E`, the
event type of the configuration is rejected by `start`. -/
theorem hardware_events_rejected (bufSize : Nat) (args : List Char) (a : Arguments)
    (pre post : List (List Char)) (t E : List Char)
    (hargs : argList args = pre ++ t :: post) (ht : argName t = "cpu:".toList ++ E)
    (hpost : ∀ u ∈ post, ¬ (argName u).take 3 = "cpu".toList)
    (hok : (parse bufSize args a).1 = none) :
    (∀ E' ev, (E', ev) ∈ eventNames → ∀ (interval : Int) (s : PerfEvents),
      s.start interval ev = (false, s)) ∧
    (∀ (interval : Int) (type : EventType) (s : PerfEvents),
      (s.start interval type).1 = true → type = .EVENT_TYPE_CPU_CLOCK) ∧
    (E, (parse bufSize args a).2._event_type) ∈ eventNames ∧
    ∀ (interval : Int) (s : PerfEvents),
      s.start interval (parse bufSize args a).2._event_type = (false, s) := by
  have hrej : ∀ E' ev, (E', ev) ∈ eventNames → ∀ (interval : Int) (s : PerfEvents),
      s.start interval ev = (false, s) := fun E' ev h interval s =>
    start_of_invalid s interval ev (Or.inr (eventNames_ne_cpu_clock E' ev h))
  have hlen : strlen args < bufSize := by
    by_contra hge
    rw [parse_too_long bufSize args a (not_lt.mp hge)] at hok
    simp at hok
  obtain ⟨hmsg, hres⟩ := parse_eq_applyArgs bufSize args a hlen
  obtain ⟨pre', t', post', hsplit, -, ht', hpost'⟩ :=
    split_of_text (argTokens args) pre post t (by rw [argTokens_text]; exact hargs)
  subst ht' hpost'
  rw [hmsg, hsplit] at hok
  obtain ⟨b, -, hb⟩ := applyArgs_append_none pre' (t' :: post') a hok
  rw [hb] at hok
  obtain ⟨c, hc, hc'⟩ := applyArgs_append_none [t'] post' b hok
  rw [List.singleton_append] at hc'
  rw [applyArgs_single] at hc
  change processArg (argName t'.text) (argValue t'.text) t'.valueAt b = (none, c) at hc
  rw [ht, processArg_cpu_event E (argValue t'.text) t'.valueAt b] at hc
  have hmem : (E, (parse bufSize args a).2._event_type) ∈ eventNames := by
    rw [hres, hsplit, hb, hc']
    have hkeep := applyArgs_keep_text (fun x => x._event_type)
      (fun u => (argName u).take 3 = "cpu".toList) processArg_event_keep post' c hpost
    dsimp only at hkeep ⊢
    rw [hkeep]
    cases hev : eventOfName E with
    | none => rw [hev] at hc; simp at hc
    | some ev =>
      rw [hev] at hc
      have hce : c = { b with _mode := .MODE_CPU, _event_type := ev } :=
        (Prod.mk.inj hc).2.symm
      rw [hce]
      exact (eventOfName_eq_some_iff E ev).mp hev
  refine ⟨hrej, ?_, hmem, hrej E _ hmem⟩
  intro interval type s htrue
  by_contra hne
  rw [start_of_invalid s interval type (Or.inr hne)] at htrue
  simp at htrue

/-- C18 on `start,cpu:branch-misses,interval=5`. -/
theorem hardware_events_rejected_witness :
    (parse 64 "start,cpu:branch-misses,interval=5".toList sampleArguments).1 = none ∧
    (parse 64 "start,cpu:branch-misses,interval=5".toList sampleArguments).2._event_type =
      .EVENT_TYPE_BRANCH_MISSES ∧
    ∀ (interval : Int) (s : PerfEvents),
      s.start interval
        (parse 64 "start,cpu:branch-misses,interval=5".toList sampleArguments).2._event_type =
        (false, s) :=
  have h := hardware_events_rejected 64 "start,cpu:branch-misses,interval=5".toList
    sampleArguments ["start".toList] ["interval=5".toList] "cpu:branch-misses".toList
    "branch-misses".toList (by decide) (by decide) (by decide) (by decide)
  ⟨by decide, by decide, h.2.2.2⟩

end AsyncProfiler
